import Mathlib

/-!
# Snake: board model, fruit placement, toroidal path planner, feature extractor,
decision policy and training signal

A shallow embedding of `src/src/Snake.cpp` (namespace `snake`).

Modelling conventions.
* C++ `int` is `Int`; `/` on `int` is `Int.tdiv` (truncation towards zero).  Coordinates,
  scores and path costs stay far below `2^31` on the boards the program builds (20 by 20
  cells), so no overflow of machine integers is modelled; a division by a zero `cellSize`
  is not modelled either.
* `std::deque<iPoint2D>` and `std::vector<iPoint2D>` are `List iPoint2D`, front first.
* A rectangular `std::vector<std::vector<bool>>` is a `BoolGrid`; an access outside its
  bounds is undefined behaviour in C++ and is `none` here.
* `std::unordered_map<iPoint2D, T>` is a function `iPoint2D → Option T`.
* Finite `long double` values are exact rationals, and a `double` literal is the exact
  value of that `double`.
* `rand()`, the order in which `std::priority_queue` returns entries of equal priority,
  and the neural network (a function from the input vector to its four outputs) are
  parameters.
* Loops that the language does not bound (`while`) take a fuel argument; `none` is
  returned when the fuel runs out.
-/

namespace snake

/-! ## Data model (`Snake.hpp`) -/

/-- The global `static const auto cellSize = 20`. -/
def cellSize : Int := 20

/-- The global `static const auto cells = 20`. -/
def cells : Int := 20

/-- The global `boardWidth = cells * cellSize`. -/
def boardWidth : Int := cells * cellSize

/-- The global `boardHeight = cells * cellSize`. -/
def boardHeight : Int := cells * cellSize

/-- The struct `iPoint2D`; `operator==` compares both coordinates. -/
structure iPoint2D where
  x : Int
  y : Int
deriving DecidableEq, Repr

/-- The enum `Direction`. -/
inductive Direction where
  | None
  | Up
  | Down
  | Left
  | Right
deriving DecidableEq, Repr

/-- The part of `struct Snake` that the game logic reads and writes. -/
structure Snake where
  segments : List iPoint2D
  direction : Direction
deriving DecidableEq, Repr

/-- The part of `struct GameBoard` that the game logic reads and writes. -/
structure GameBoard where
  width : Int
  height : Int
  cellSize : Int
  snake : Snake
  fruit : iPoint2D
  score : Int
  gameOver : Bool
deriving DecidableEq, Repr

/-- The struct `Node` of the open list. -/
structure Node where
  point : iPoint2D
  gCost : Int
  hCost : Int
deriving DecidableEq, Repr

/-- The method `Node::fCost`. -/
def Node.fCost (n : Node) : Int := n.gCost + n.hCost

/-- A rectangular `std::vector<std::vector<bool>>` with `rows` outer entries of `cols`
inner entries each. -/
structure BoolGrid where
  rows : Nat
  cols : Nat
  cell : Nat → Nat → Bool

/-- The constructor call `vector<vector<bool>>(rows, vector<bool>(cols, v))`; a negative
size has no vector. -/
def BoolGrid.filled (rows cols : Int) (v : Bool) : Option BoolGrid :=
  if 0 ≤ rows ∧ 0 ≤ cols then some ⟨rows.toNat, cols.toNat, fun _ _ => v⟩ else none

/-- Whether `g[i][j]` is inside the vectors. -/
def BoolGrid.inRange (g : BoolGrid) (i j : Int) : Bool :=
  decide (0 ≤ i) && decide (i < g.rows) && decide (0 ≤ j) && decide (j < g.cols)

/-- The read `g[i][j]`. -/
def BoolGrid.read (g : BoolGrid) (i j : Int) : Option Bool :=
  if g.inRange i j then some (g.cell i.toNat j.toNat) else none

/-- The assignment `g[i][j] = v`. -/
def BoolGrid.write (g : BoolGrid) (i j : Int) (v : Bool) : Option BoolGrid :=
  if g.inRange i j then
    some { g with cell := fun a b => if a = i.toNat ∧ b = j.toNat then v else g.cell a b }
  else none

/-- The loop `for (segment : segments) g[segment.x][segment.y] = v`. -/
def BoolGrid.writeAll (v : Bool) : BoolGrid → List iPoint2D → Option BoolGrid
  | g, [] => some g
  | g, segment :: rest =>
    match g.write segment.x segment.y v with
    | none => none
    | some g1 => BoolGrid.writeAll v g1 rest

/-- The cells visited by `for (x = 0; x < w; ++x) for (y = 0; y < h; ++y)`, in loop
order. -/
def loopCells (w h : Int) : List iPoint2D :=
  (List.range w.toNat).flatMap fun (x : Nat) =>
    (List.range h.toNat).map fun (y : Nat) => iPoint2D.mk (x : Int) (y : Int)

/-! ## Body movement -/

/-- The method `Snake::reset`. -/
def Snake.reset : Snake :=
  { segments := [⟨cells.tdiv 2, cells.tdiv 2⟩, ⟨cells.tdiv 2 - 1, cells.tdiv 2⟩],
    direction := Direction.Right }

/-- The `switch (direction)` of `Snake::update`. -/
def Snake.stepHead (direction : Direction) (head : iPoint2D) : iPoint2D :=
  match direction with
  | Direction.Up => { head with y := head.y - 1 }
  | Direction.Down => { head with y := head.y + 1 }
  | Direction.Left => { head with x := head.x - 1 }
  | Direction.Right => { head with x := head.x + 1 }
  | Direction.None => head

/-- The value of the local `head` of `Snake::update` once the wrap branches of the
`else if` chain have run (lines 120-144). -/
def Snake.movedHead (gameBoard : GameBoard) (front : iPoint2D) : iPoint2D :=
  let head := Snake.stepHead gameBoard.snake.direction front
  if head.x < 0 then { head with x := gameBoard.width.tdiv gameBoard.cellSize - 1 }
  else if head.x ≥ gameBoard.width.tdiv cellSize then { head with x := 0 }
  else if head.y < 0 then { head with y := gameBoard.height.tdiv gameBoard.cellSize - 1 }
  else if head.y ≥ gameBoard.height.tdiv cellSize then { head with y := 0 }
  else head

/-- The collection of free cells in `GameBoard::setFruitToRandom`: every read must be in
range, and the cells whose entry is `true` are kept in loop order. -/
def possiblePositions (validPositions : BoolGrid) (w h : Int) : Option (List iPoint2D) :=
  if (loopCells w h).all (fun p => validPositions.inRange p.x p.y) then
    some ((loopCells w h).filter fun p => validPositions.cell p.x.toNat p.y.toNat)
  else none

/-- The method `GameBoard::setFruitToRandom`; `rnd` is the value returned by `rand()`. -/
def GameBoard.setFruitToRandom (gameBoard : GameBoard) (rnd : Nat) : Option GameBoard :=
  match BoolGrid.filled (gameBoard.height.tdiv gameBoard.cellSize)
      (gameBoard.width.tdiv gameBoard.cellSize) true with
  | none => none
  | some fresh =>
    match BoolGrid.writeAll false fresh gameBoard.snake.segments with
    | none => none
    | some validPositions =>
      match possiblePositions validPositions (gameBoard.width.tdiv gameBoard.cellSize)
          (gameBoard.height.tdiv gameBoard.cellSize) with
      | none => none
      | some [] => some gameBoard
      | some (p :: ps) =>
        some { gameBoard with fruit := (p :: ps).getD (rnd % (p :: ps).length) p }

/-- The tail of `Snake::update` under the comment "Move the snake" (lines 160-170). -/
def Snake.moveSnake (rnd : Nat) (gameBoard : GameBoard) (head : iPoint2D) : Option GameBoard :=
  let pushed : GameBoard :=
    { gameBoard with snake := { gameBoard.snake with segments := head :: gameBoard.snake.segments } }
  if head = pushed.fruit then
    GameBoard.setFruitToRandom { pushed with score := pushed.score + 1 } rnd
  else
    some { pushed with snake := { pushed.snake with segments := pushed.snake.segments.dropLast } }

/-- The method `Snake::update`; `trainingAI` is the global flag, `rnd` the value `rand()`
returns if it is called.  `segments.front()` of an empty deque is undefined. -/
def Snake.update (trainingAI : Bool) (rnd : Nat) (gameBoard : GameBoard) : Option GameBoard :=
  if gameBoard.gameOver then some gameBoard
  else
    match gameBoard.snake.segments with
    | [] => none
    | front :: _ =>
      let head := Snake.stepHead gameBoard.snake.direction front
      if head.x < 0 then
        Snake.moveSnake rnd gameBoard { head with x := gameBoard.width.tdiv gameBoard.cellSize - 1 }
      else if head.x ≥ gameBoard.width.tdiv cellSize then
        Snake.moveSnake rnd gameBoard { head with x := 0 }
      else if head.y < 0 then
        Snake.moveSnake rnd gameBoard { head with y := gameBoard.height.tdiv gameBoard.cellSize - 1 }
      else if head.y ≥ gameBoard.height.tdiv cellSize then
        Snake.moveSnake rnd gameBoard { head with y := 0 }
      else if head ∈ gameBoard.snake.segments then
        if trainingAI then
          Snake.moveSnake rnd
            { gameBoard with snake := Snake.reset, gameOver := false, score := 0 } head
        else some { gameBoard with gameOver := true }
      else Snake.moveSnake rnd gameBoard head

/-- The method `Snake::onUpKey`. -/
def Snake.onUpKey (pressed : Bool) (s : Snake) : Snake :=
  if !pressed || s.direction = Direction.Down then s else { s with direction := Direction.Up }

/-- The method `Snake::onDownKey`. -/
def Snake.onDownKey (pressed : Bool) (s : Snake) : Snake :=
  if !pressed || s.direction = Direction.Up then s else { s with direction := Direction.Down }

/-- The method `Snake::onLeftKey`. -/
def Snake.onLeftKey (pressed : Bool) (s : Snake) : Snake :=
  if !pressed || s.direction = Direction.Right then s else { s with direction := Direction.Left }

/-- The method `Snake::onRightKey`. -/
def Snake.onRightKey (pressed : Bool) (s : Snake) : Snake :=
  if !pressed || s.direction = Direction.Left then s else { s with direction := Direction.Right }

/-! ## Decision policy -/

/-- The scalar overload `distance(a, b) = std::abs(a - b)`.  For a finite `long double`
`a` the difference `a - 1` is computed without rounding when `1/2 ≤ a ≤ 2`, and outside
that interval its rounded value stays at least `1/2` away from zero, so comparing the
exact value with a threshold below `1/2` is the comparison the code makes. -/
def distance (a b : ℚ) : ℚ := |a - b|

/-- The value of the literal `0.05` in `distance(outputs[i], 1) <= 0.05`: the literal has
type `double`, and the `double` nearest to one twentieth is `3602879701896397 / 2^56`,
which is slightly more than one twentieth. -/
def literal_0_05 : ℚ := 3602879701896397 / 72057594037927936

/-- The move decision of `AISnake::activation` (lines 297-313) on the four network
outputs. -/
def AISnake.moveDecision (o0 o1 o2 o3 : ℚ) (s : Snake) : Snake :=
  if distance o0 1 ≤ literal_0_05 then Snake.onUpKey true s
  else if distance o1 1 ≤ literal_0_05 then Snake.onDownKey true s
  else if distance o2 1 ≤ literal_0_05 then Snake.onLeftKey true s
  else if distance o3 1 ≤ literal_0_05 then Snake.onRightKey true s
  else s

/-! ## Toroidal path planner -/

/-- The method `GameBoard::getGrid`. -/
def GameBoard.getGrid (gameBoard : GameBoard) : Option BoolGrid :=
  match BoolGrid.filled (gameBoard.height.tdiv gameBoard.cellSize)
      (gameBoard.width.tdiv gameBoard.cellSize) false with
  | none => none
  | some grid => BoolGrid.writeAll true grid gameBoard.snake.segments

/-- The function `isValid`; `&&` short-circuits, so `grid[0]` and `grid[x][y]` are only
read when the tests before them hold. -/
def isValid (x y : Int) (grid : BoolGrid) : Bool :=
  decide (0 ≤ x) && decide (x < grid.rows) && decide (0 ≤ y) && decide (y < grid.cols) &&
    (grid.cell x.toNat y.toNat == false)

/-- The function `manhattanDistance`. -/
def manhattanDistance (a b : iPoint2D) : Int :=
  ((a.x - b.x).natAbs : Int) + ((a.y - b.y).natAbs : Int)

/-- The vector `directions` of `GameBoard::aStar`. -/
def directions : List iPoint2D := [⟨-1, 0⟩, ⟨0, 1⟩, ⟨1, 0⟩, ⟨0, -1⟩]

/-- The wrap-around of one coordinate of a neighbor (lines 692-708). -/
def wrapCoord (v dim : Int) : Int :=
  if v < 0 then dim - 1 else if v ≥ dim then 0 else v

/-- The neighbor of `current` in direction `dir` after the wrap-around logic. -/
def wrapNeighbor (gridWidth gridHeight : Int) (current dir : iPoint2D) : iPoint2D :=
  ⟨wrapCoord (current.x + dir.x) gridWidth, wrapCoord (current.y + dir.y) gridHeight⟩

/-- The mutable locals of `GameBoard::aStar`: the open list and the maps `gCost` and
`parent`. -/
structure Search where
  openList : List Node
  gCost : iPoint2D → Option Int
  parent : iPoint2D → Option iPoint2D

/-- The assignment `m[k] = v` on an `unordered_map`. -/
def mapSet {β : Type} (m : iPoint2D → Option β) (k : iPoint2D) (v : β) : iPoint2D → Option β :=
  fun p => if p = k then some v else m p

/-- Every way of taking one entry out of the open list. -/
def splits : List Node → List (Node × List Node)
  | [] => []
  | n :: l => (n, l) :: (splits l).map fun s => (s.1, n :: s.2)

/-- Whether no entry of the open list has a smaller `fCost` than `n`, that is whether
`top()` may return `n` (`Node::operator<` orders by `fCost` only). -/
def isTop (l : List Node) (n : Node) : Bool :=
  l.all fun m => decide (n.fCost ≤ m.fCost)

/-- The calls `openList.top()` and `openList.pop()`: an entry of least `fCost` leaves the
list; `choice` picks among the entries of least `fCost`. -/
def popTop (choice : Nat) (l : List Node) : Option (Node × List Node) :=
  let candidates := (splits l).filter fun s => isTop l s.1
  candidates[choice % candidates.length]?

/-- The update of a neighbor (lines 717-722): `gCost[neighbor] = tentativeGCost`,
`parent[neighbor] = current` and the push of the neighbor on the open list. -/
def Search.improve (s : Search) (neighbor : iPoint2D) (tentativeGCost : Int)
    (current target : iPoint2D) : Search :=
  { openList := s.openList ++ [⟨neighbor, tentativeGCost, manhattanDistance neighbor target⟩],
    gCost := mapSet s.gCost neighbor tentativeGCost,
    parent := mapSet s.parent neighbor current }

/-- One round of the loop over `directions`: the body of `for (dir : directions)`.  The
read `gCost[current]` yields `0` for a missing key (and `operator[]` would then insert
that entry); the key is present whenever the loop gets here, since a cell is pushed on
the open list only together with its `gCost` entry. -/
def relax (grid : BoolGrid) (gridWidth gridHeight : Int) (target current : iPoint2D)
    (s : Search) (dir : iPoint2D) : Search :=
  let neighbor := wrapNeighbor gridWidth gridHeight current dir
  if isValid neighbor.x neighbor.y grid then
    let tentativeGCost := (s.gCost current).getD 0 + 1
    if (s.gCost neighbor).isNone || decide (tentativeGCost < (s.gCost neighbor).getD 0) then
      s.improve neighbor tentativeGCost current target
    else s
  else s

/-- The loop `for (dir : directions)` of `GameBoard::aStar`. -/
def expand (grid : BoolGrid) (gridWidth gridHeight : Int) (target current : iPoint2D)
    (s : Search) : Search :=
  directions.foldl (relax grid gridWidth gridHeight target current) s

/-- The path reconstruction `while (p != start) { path.push_back(p); p = parent[p]; }`
followed by `path.push_back(start)` and `std::reverse`.  The read `parent[p]` yields the
point `(0, 0)` for a missing key (and `operator[]` would then insert that entry); every
cell with a `gCost` entry other than `start` has a `parent` entry. -/
def reconstruct (parent : iPoint2D → Option iPoint2D) (start : iPoint2D) :
    Nat → iPoint2D → List iPoint2D → Option (List iPoint2D)
  | 0, _, _ => none
  | fuel + 1, p, path =>
    if p ≠ start then reconstruct parent start fuel ((parent p).getD ⟨0, 0⟩) (path ++ [p])
    else some (path ++ [start]).reverse

/-- The loop `while (!openList.empty())` of `GameBoard::aStar` and the `return {}` after
it; `k` counts the pops made so far and `tie k` is the choice at the next pop. -/
def aStarLoop (tie : Nat → Nat) (grid : BoolGrid) (gridWidth gridHeight : Int)
    (start target : iPoint2D) (pathFuel : Nat) : Nat → Nat → Search → Option (List iPoint2D)
  | 0, _, _ => none
  | fuel + 1, k, s =>
    match popTop (tie k) s.openList with
    | none => some []
    | some (current, rest) =>
      if current.point = target then reconstruct s.parent start pathFuel target []
      else
        aStarLoop tie grid gridWidth gridHeight start target pathFuel fuel (k + 1)
          (expand grid gridWidth gridHeight target current.point { s with openList := rest })

/-- The locals of `GameBoard::aStar` when the search loop is entered:
`gCost[start] = 0` and the start node on the open list (lines 660-661). -/
def Search.initial (start target : iPoint2D) : Search :=
  { openList := [⟨start, 0, manhattanDistance start target⟩],
    gCost := mapSet (fun _ => none) start 0,
    parent := fun _ => none }

/-- The method `GameBoard::aStar`.  `tie` resolves the order among open-list entries of
equal `fCost`; `fuel` bounds the number of iterations of each of the two `while` loops.
The result is `none` when `getGrid` leaves the bounds of its vectors or a loop is still
running when the fuel is used up. -/
def GameBoard.aStar (gameBoard : GameBoard) (tie : Nat → Nat) (fuel : Nat)
    (start target : iPoint2D) : Option (List iPoint2D) :=
  match gameBoard.getGrid with
  | none => none
  | some grid =>
    aStarLoop tie grid (gameBoard.width.tdiv gameBoard.cellSize)
      (gameBoard.height.tdiv gameBoard.cellSize) start target fuel fuel 0
      (Search.initial start target)

/-! ## Vocabulary of the statements -/

/-- The local `gridWidth = width / cellSize` of `GameBoard::aStar`. -/
def GameBoard.gridWidth (gameBoard : GameBoard) : Int := gameBoard.width.tdiv gameBoard.cellSize

/-- The local `gridHeight = height / cellSize` of `GameBoard::aStar`. -/
def GameBoard.gridHeight (gameBoard : GameBoard) : Int := gameBoard.height.tdiv gameBoard.cellSize

/-- The valid range of a cell: `[0, w) × [0, h)`. -/
def inGrid (w h : Int) (p : iPoint2D) : Prop :=
  0 ≤ p.x ∧ p.x < w ∧ 0 ≤ p.y ∧ p.y < h

instance (w h : Int) (p : iPoint2D) : Decidable (inGrid w h p) :=
  inferInstanceAs (Decidable (0 ≤ p.x ∧ p.x < w ∧ 0 ≤ p.y ∧ p.y < h))

/-- A square board of `n` by `n` cells whose Body lies in the grid. -/
def squareBoard (gameBoard : GameBoard) (n : Int) : Prop :=
  1 ≤ n ∧ gameBoard.gridWidth = n ∧ gameBoard.gridHeight = n ∧
    ∀ s ∈ gameBoard.snake.segments, inGrid n n s

instance (gameBoard : GameBoard) (n : Int) : Decidable (squareBoard gameBoard n) :=
  inferInstanceAs (Decidable (1 ≤ n ∧ gameBoard.gridWidth = n ∧ gameBoard.gridHeight = n ∧
    ∀ s ∈ gameBoard.snake.segments, inGrid n n s))

/-- One step of a cell along a heading on the torus of `w` by `h` cells: the coordinate
moves by one unit and re-enters at the opposite edge. -/
def toroidalAdvance (w h : Int) (d : Direction) (c : iPoint2D) : iPoint2D :=
  match d with
  | Direction.Up => ⟨c.x, (c.y - 1) % h⟩
  | Direction.Down => ⟨c.x, (c.y + 1) % h⟩
  | Direction.Left => ⟨(c.x - 1) % w, c.y⟩
  | Direction.Right => ⟨(c.x + 1) % w, c.y⟩
  | Direction.None => c

/-- The heading that output index `i` of the policy stands for: Up, Down, Left, Right. -/
def headingOfIndex : Fin 4 → Direction
  | 0 => Direction.Up
  | 1 => Direction.Down
  | 2 => Direction.Left
  | 3 => Direction.Right

/-- The heading directly opposite to a heading. -/
def Direction.opposite : Direction → Direction
  | Direction.Up => Direction.Down
  | Direction.Down => Direction.Up
  | Direction.Left => Direction.Right
  | Direction.Right => Direction.Left
  | Direction.None => Direction.None

/-- A policy output qualifies when its absolute distance from 1 is at most the value of
the `double` literal `0.05`. -/
def qualifies (o : ℚ) : Prop := |o - 1| ≤ literal_0_05

/-- A 20 x 20 board in the middle of a game: the Body has turned back on itself and heads
Down into its own fourth segment. -/
def collisionBoard : GameBoard :=
  { width := 400, height := 400, cellSize := 20,
    snake := { segments := [⟨5, 5⟩, ⟨6, 5⟩, ⟨6, 6⟩, ⟨5, 6⟩, ⟨4, 6⟩], direction := Direction.Down },
    fruit := ⟨3, 3⟩, score := 3, gameOver := false }

/-- A 20 x 20 board in the middle of a game: the Body has crossed the right edge and now
heads Left from column 0, back across the edge into its own fourth segment. -/
def wrapBoard : GameBoard :=
  { width := 400, height := 400, cellSize := 20,
    snake := { segments := [⟨0, 5⟩, ⟨0, 6⟩, ⟨19, 6⟩, ⟨19, 5⟩, ⟨18, 5⟩], direction := Direction.Left },
    fruit := ⟨3, 3⟩, score := 3, gameOver := false }

/-- A 3 x 3 board whose Body leaves the cells of column 0 and column 2 free, with the
Fruit next to the head across the left edge. -/
def smallBoard : GameBoard :=
  { width := 60, height := 60, cellSize := 20,
    snake := { segments := [⟨0, 1⟩, ⟨1, 1⟩, ⟨1, 0⟩], direction := Direction.Left },
    fruit := ⟨2, 1⟩, score := 1, gameOver := false }

/-- One toroidal step on an `n` by `n` grid: one unit along one axis, modulo `n`. -/
def toroidalStep (n : Int) (a b : iPoint2D) : Prop :=
  (b.y = a.y ∧ (b.x = (a.x + 1) % n ∨ b.x = (a.x - 1) % n)) ∨
  (b.x = a.x ∧ (b.y = (a.y + 1) % n ∨ b.y = (a.y - 1) % n))

instance (n : Int) (a b : iPoint2D) : Decidable (toroidalStep n a b) :=
  inferInstanceAs (Decidable (
    (b.y = a.y ∧ (b.x = (a.x + 1) % n ∨ b.x = (a.x - 1) % n)) ∨
    (b.x = a.x ∧ (b.y = (a.y + 1) % n ∨ b.y = (a.y - 1) % n))))

/-- One toroidal step onto a cell that is not a Body cell. -/
def freeStep (n : Int) (body : List iPoint2D) (a b : iPoint2D) : Prop :=
  toroidalStep n a b ∧ b ∉ body

instance (n : Int) (body : List iPoint2D) (a b : iPoint2D) : Decidable (freeStep n body a b) :=
  inferInstanceAs (Decidable (toroidalStep n a b ∧ b ∉ body))

/-- The target is reachable from the start: there is a sequence of toroidal one-step moves
from `start` to `target` in which every cell after `start` is not a Body cell. -/
def reachable (n : Int) (body : List iPoint2D) (start target : iPoint2D) : Prop :=
  ∃ route : List iPoint2D, List.Chain (freeStep n body) start route ∧
    (start :: route).getLast? = some target

/-- The property of a planned path: it runs from `start` to `target`, every consecutive
pair of cells is one toroidal step apart, and no cell occurs twice. -/
def validPath (n : Int) (start target : iPoint2D) (path : List iPoint2D) : Prop :=
  path.head? = some start ∧ path.getLast? = some target ∧
    List.Chain' (toroidalStep n) path ∧ path.Nodup

/-- The number of loop iterations after which `GameBoard::aStar` has returned on an `n` by
`n` board. -/
def aStarFuel (n : Int) : Nat :=
  2 * (n.toNat * n.toNat) * (n.toNat * n.toNat + 1) + 2

/-! ## Vocabulary of the planner's invariants -/

/-- One expansion of the planner: `p` is a wrapped neighbor of `q` and passes `isValid`. -/
def edge (grid : BoolGrid) (n : Int) (q p : iPoint2D) : Prop :=
  (∃ d ∈ directions, p = wrapNeighbor n n q d) ∧ isValid p.x p.y grid = true

/-- The cells of the `n` by `n` grid as a finite set. -/
def gridCells (n : Int) : Finset iPoint2D := (loopCells n n).toFinset

/-- The number of grid cells that have an entry in `gCost`. -/
def knownCount (n : Int) (s : Search) : Nat :=
  ((gridCells n).filter fun p => (s.gCost p).isSome).card

/-- The weight of a cell in the termination measure: its recorded cost, or more than any
recorded cost when it has none. -/
def weight (n : Int) (s : Search) (p : iPoint2D) : Nat :=
  match s.gCost p with
  | none => (gridCells n).card + 1
  | some g => g.toNat

/-- The sum of the weights of all grid cells. -/
def potential (n : Int) (s : Search) : Nat :=
  ∑ p in gridCells n, weight n s p

/-- The termination measure of the search loop. -/
def searchMeasure (n : Int) (s : Search) : Nat :=
  2 * potential n s + s.openList.length

/-- The invariant of the search loop on the maps `gCost` and `parent`. -/
structure SearchInv (grid : BoolGrid) (n : Int) (start : iPoint2D) (s : Search) : Prop where
  start_cost : s.gCost start = some 0
  open_known : ∀ nd ∈ s.openList, (s.gCost nd.point).isSome = true
  cost_pos : ∀ p g, s.gCost p = some g → p ≠ start → 1 ≤ g
  link : ∀ p g, s.gCost p = some g → p ≠ start →
    ∃ q gq, s.parent p = some q ∧ s.gCost q = some gq ∧ gq + 1 ≤ g ∧ edge grid n q p
  reach : ∀ p g, s.gCost p = some g → Relation.ReflTransGen (edge grid n) start p
  bound : ∀ p g, s.gCost p = some g → inGrid n n p ∧ g + 1 ≤ knownCount n s

/-- The invariant of the search loop on the open list: a target with a cost is on the open
list, and every cell with a cost is on the open list or has all its valid neighbors
recorded; `current` is the cell whose neighbors are being explored. -/
structure FrontierInv (grid : BoolGrid) (n : Int) (target : iPoint2D)
    (current : Option iPoint2D) (s : Search) : Prop where
  target_open : (s.gCost target).isSome = true → ∃ nd ∈ s.openList, nd.point = target
  closed : ∀ p, (s.gCost p).isSome = true →
    some p = current ∨ (∃ nd ∈ s.openList, nd.point = p) ∨
      ∀ d ∈ directions, isValid (wrapNeighbor n n p d).x (wrapNeighbor n n p d).y grid = true →
        (s.gCost (wrapNeighbor n n p d)).isSome = true

/-- The invariant of the loop over `directions` while the neighbors of `current` are being
explored; `m` bounds the termination measure. -/
structure ExpandInv (grid : BoolGrid) (n : Int) (start target current : iPoint2D) (m : Nat)
    (s : Search) : Prop where
  search : SearchInv grid n start s
  frontier : FrontierInv grid n target (some current) s
  current_known : (s.gCost current).isSome = true
  measure_le : searchMeasure n s ≤ m

/-- The relation between consecutive cells of a reconstructed path: `p` was recorded from
the grid cell `q`, at a higher cost. -/
def pathLink (grid : BoolGrid) (n : Int) (s : Search) (q p : iPoint2D) : Prop :=
  edge grid n q p ∧ inGrid n n q ∧ (s.gCost q).getD 0 < (s.gCost p).getD 0

/-! ## Feature extractor -/

/-- The method `AISnake::computeDistanceToWallUp`. -/
def AISnake.computeDistanceToWallUp (head : iPoint2D) (_gridHeight : Int) : ℚ :=
  (head.y : ℚ)

/-- The method `AISnake::computeDistanceToWallDown`. -/
def AISnake.computeDistanceToWallDown (head : iPoint2D) (gridHeight : Int) : ℚ :=
  ((gridHeight - head.y - 1 : Int) : ℚ)

/-- The method `AISnake::computeDistanceToWallLeft`. -/
def AISnake.computeDistanceToWallLeft (head : iPoint2D) (_gridWidth : Int) : ℚ :=
  (head.x : ℚ)

/-- The method `AISnake::computeDistanceToWallRight`. -/
def AISnake.computeDistanceToWallRight (head : iPoint2D) (gridWidth : Int) : ℚ :=
  ((gridWidth - head.x - 1 : Int) : ℚ)

/-- A counting `for` loop that returns at the first value satisfying `p`: the loop
variable starts at `v`, moves by `step` after every round and the loop makes at most `k`
rounds. -/
def firstHit (p : Int → Bool) (step : Int) : Int → Nat → Option Int
  | _, 0 => none
  | v, k + 1 => if p v then some v else firstHit p step (v + step) k

/-- The method `AISnake::computeDistanceToSnakeUp`: `y` runs from `head.y - 1` down to
`0`. -/
def AISnake.computeDistanceToSnakeUp (head : iPoint2D) (segments : List iPoint2D) : ℚ :=
  match firstHit (fun y => decide (iPoint2D.mk head.x y ∈ segments)) (-1) (head.y - 1)
      head.y.toNat with
  | some y => ((head.y - y : Int) : ℚ)
  | none => ((head.y + 1 : Int) : ℚ)

/-- The method `AISnake::computeDistanceToSnakeDown`: `y` runs from `head.y + 1` up to
`gridHeight - 1`. -/
def AISnake.computeDistanceToSnakeDown (head : iPoint2D) (segments : List iPoint2D)
    (gridHeight : Int) : ℚ :=
  match firstHit (fun y => decide (iPoint2D.mk head.x y ∈ segments)) 1 (head.y + 1)
      (gridHeight - head.y - 1).toNat with
  | some y => ((y - head.y : Int) : ℚ)
  | none => ((gridHeight - head.y : Int) : ℚ)

/-- The method `AISnake::computeDistanceToSnakeLeft`: `x` runs from `head.x - 1` down to
`0`. -/
def AISnake.computeDistanceToSnakeLeft (head : iPoint2D) (segments : List iPoint2D) : ℚ :=
  match firstHit (fun x => decide (iPoint2D.mk x head.y ∈ segments)) (-1) (head.x - 1)
      head.x.toNat with
  | some x => ((head.x - x : Int) : ℚ)
  | none => ((head.x + 1 : Int) : ℚ)

/-- The method `AISnake::computeDistanceToSnakeRight`: `x` runs from `head.x + 1` up to
`gridWidth - 1`. -/
def AISnake.computeDistanceToSnakeRight (head : iPoint2D) (segments : List iPoint2D)
    (gridWidth : Int) : ℚ :=
  match firstHit (fun x => decide (iPoint2D.mk x head.y ∈ segments)) 1 (head.x + 1)
      (gridWidth - head.x - 1).toNat with
  | some x => ((x - head.x : Int) : ℚ)
  | none => ((gridWidth - head.x : Int) : ℚ)

/-- The method `AISnake::computeRelativeFruitX`; `gridWidth / 2.0` is a floating-point
division. -/
def AISnake.computeRelativeFruitX (head fruit : iPoint2D) (gridWidth : Int) : ℚ :=
  let deltaX : ℚ := ((fruit.x - head.x : Int) : ℚ)
  let deltaX1 : ℚ := if deltaX > (gridWidth : ℚ) / 2 then deltaX - (gridWidth : ℚ) else deltaX
  if deltaX1 < ((-gridWidth : Int) : ℚ) / 2 then deltaX1 + (gridWidth : ℚ) else deltaX1

/-- The method `AISnake::computeRelativeFruitY`; `gridHeight / 2.0` is a floating-point
division. -/
def AISnake.computeRelativeFruitY (head fruit : iPoint2D) (gridHeight : Int) : ℚ :=
  let deltaY : ℚ := ((fruit.y - head.y : Int) : ℚ)
  let deltaY1 : ℚ := if deltaY > (gridHeight : ℚ) / 2 then deltaY - (gridHeight : ℚ) else deltaY
  if deltaY1 < ((-gridHeight : Int) : ℚ) / 2 then deltaY1 + (gridHeight : ℚ) else deltaY1

/-- The method `AISnake::computeDirectionX`. -/
def AISnake.computeDirectionX (direction : Direction) : ℚ :=
  match direction with
  | Direction.Left => -1
  | Direction.Right => 1
  | _ => 0

/-- The method `AISnake::computeDirectionY`. -/
def AISnake.computeDirectionY (direction : Direction) : ℚ :=
  match direction with
  | Direction.Up => -1
  | Direction.Down => 1
  | _ => 0

/-- The method `AISnake::computeSnakeLength`. -/
def AISnake.computeSnakeLength (segments : List iPoint2D) : ℚ :=
  (segments.length : ℚ)

/-- The vector `input` of `AISnake::activation` (lines 269-292); `gridWidth` and
`gridHeight` are computed with the global `cellSize`. -/
def AISnake.input (gameBoard : GameBoard) (head : iPoint2D) : List ℚ :=
  let gridHeight := gameBoard.height.tdiv cellSize
  let gridWidth := gameBoard.width.tdiv cellSize
  let segments := gameBoard.snake.segments
  [AISnake.computeDistanceToWallUp head gridHeight,
   AISnake.computeDistanceToWallDown head gridHeight,
   AISnake.computeDistanceToWallLeft head gridWidth,
   AISnake.computeDistanceToWallRight head gridWidth,
   AISnake.computeDistanceToSnakeUp head segments,
   AISnake.computeDistanceToSnakeDown head segments gridHeight,
   AISnake.computeDistanceToSnakeLeft head segments,
   AISnake.computeDistanceToSnakeRight head segments gridWidth,
   AISnake.computeRelativeFruitX head gameBoard.fruit gridWidth,
   AISnake.computeRelativeFruitY head gameBoard.fruit gridHeight,
   AISnake.computeDirectionX gameBoard.snake.direction,
   AISnake.computeDirectionY gameBoard.snake.direction,
   AISnake.computeSnakeLength segments]

/-! ## Training signal synthesizer -/

/-- The locals `bestDirection` and `bestScore` of `AISnake::activation`; `none` stands for
the initial score, minus infinity. -/
structure Best where
  bestDirection : Int
  bestScore : Option ℚ
deriving DecidableEq

/-- The local `score` of one round of the loop over the path (lines 334-342). -/
def AISnake.stepScore (gridWidth gridHeight : Int) (head fruit nextMove : iPoint2D) : ℚ :=
  let deltaX := nextMove.x - head.x
  let deltaY := nextMove.y - head.y
  if nextMove = fruit then 0 + 10
  else 0 + (((gridWidth - (deltaX.natAbs : Int)) + (gridHeight - (deltaY.natAbs : Int)) : Int) : ℚ)

/-- The local `directionIndex` of one round of the loop over the path (lines 345-361). -/
def AISnake.stepDirection (head nextMove : iPoint2D) : Int :=
  let deltaX := nextMove.x - head.x
  let deltaY := nextMove.y - head.y
  if deltaX < 0 then 2
  else if deltaX > 0 then 3
  else if deltaY < 0 then 0
  else if deltaY > 0 then 1
  else -1

/-- One round of the loop over the path: the body of `for (i = 1; ...)` for
`nextMove = path[i]`. -/
def AISnake.examine (gridWidth gridHeight : Int) (head fruit : iPoint2D) (best : Best)
    (nextMove : iPoint2D) : Best :=
  let score := AISnake.stepScore gridWidth gridHeight head fruit nextMove
  let directionIndex := AISnake.stepDirection head nextMove
  let higher : Bool :=
    match best.bestScore with
    | none => true
    | some bestScore => decide (score > bestScore)
  if higher then { bestDirection := directionIndex, bestScore := some score } else best

/-- The cells `path[1] .. path[min(5, path.size() - 1)]` that the loop examines. -/
def AISnake.examinedSteps (path : List iPoint2D) : List iPoint2D :=
  (path.drop 1).take (min 5 (path.length - 1))

/-- The locals `bestDirection` and `bestScore` after the loop over the path. -/
def AISnake.bestOf (gridWidth gridHeight : Int) (head fruit : iPoint2D)
    (path : List iPoint2D) : Best :=
  (AISnake.examinedSteps path).foldl (AISnake.examine gridWidth gridHeight head fruit)
    { bestDirection := -1, bestScore := none }

/-- The vector `expectedOutputs` that `AISnake::activation` passes to `backpropagate`
(lines 316-376), for the path the planner returned. -/
def AISnake.expectedOutputs (gridWidth gridHeight : Int) (head fruit : iPoint2D)
    (path : List iPoint2D) : List ℚ :=
  if path.isEmpty then [0, 0, 0, 0]
  else
    let best := AISnake.bestOf gridWidth gridHeight head fruit path
    if best.bestDirection ≠ -1 then ([0, 0, 0, 0] : List ℚ).set best.bestDirection.toNat 1
    else [0, 0, 0, 0]

/-- The method `AISnake::activation`.  `policy` is the network: it maps the input vector
to the four outputs that `feedforward` and `getOutputs` deliver.  The result is the Snake
after the move decision together with the vector passed to `backpropagate`. -/
def AISnake.activation (policy : List ℚ → Fin 4 → ℚ) (tie : Nat → Nat) (fuel : Nat)
    (gameBoard : GameBoard) : Option (Snake × List ℚ) :=
  match gameBoard.snake.segments with
  | [] => none
  | head :: _ =>
    let gridHeight := gameBoard.height.tdiv cellSize
    let gridWidth := gameBoard.width.tdiv cellSize
    let outputs := policy (AISnake.input gameBoard head)
    let decided :=
      AISnake.moveDecision (outputs 0) (outputs 1) (outputs 2) (outputs 3) gameBoard.snake
    match gameBoard.aStar tie fuel head gameBoard.fruit with
    | none => none
    | some path =>
      some (decided, AISnake.expectedOutputs gridWidth gridHeight head gameBoard.fruit path)

/-! ## Further vocabulary of the statements -/

/-- The vector of four entries with a 1 at index `i` and 0 elsewhere. -/
def oneHot (i : Fin 4) : List ℚ := ([0, 0, 0, 0] : List ℚ).set i.val 1

/-- The number of open-list entries that `top()` may return. -/
def topCount (l : List Node) : Nat :=
  ((splits l).filter fun s => isTop l s.1).length

/-- Whether the search loop, run for at most `fuel` iterations from the state `s`, never
has more than one open-list entry of least `fCost` to choose from. -/
def forcedRun (grid : BoolGrid) (gridWidth gridHeight : Int) (target : iPoint2D) :
    Nat → Search → Bool
  | 0, _ => true
  | fuel + 1, s =>
    match popTop 0 s.openList with
    | none => true
    | some (current, rest) =>
      decide (topCount s.openList ≤ 1) &&
        (decide (current.point = target) ||
          forcedRun grid gridWidth gridHeight target fuel
            (expand grid gridWidth gridHeight target current.point { s with openList := rest }))

/-- Whether `GameBoard::aStar`, run for at most `fuel` iterations, never has more than
one open-list entry of least `fCost` to choose from. -/
def forcedAStar (gameBoard : GameBoard) (fuel : Nat) (start target : iPoint2D) : Bool :=
  match gameBoard.getGrid with
  | none => true
  | some grid =>
    forcedRun grid (gameBoard.width.tdiv gameBoard.cellSize)
      (gameBoard.height.tdiv gameBoard.cellSize) target fuel (Search.initial start target)

/-- The 20 x 20 board of the training-signal example: Body `[(10,10), (9,10)]`, heading
Right, Fruit `(15,10)`. -/
def synthBoard : GameBoard :=
  { width := 400, height := 400, cellSize := 20,
    snake := { segments := [⟨10, 10⟩, ⟨9, 10⟩], direction := Direction.Right },
    fruit := ⟨15, 10⟩, score := 0, gameOver := false }

/-- The planner path of the training-signal example: the straight row from `(10,10)` to
`(15,10)`. -/
def synthRow : List iPoint2D := [⟨10, 10⟩, ⟨11, 10⟩, ⟨12, 10⟩, ⟨13, 10⟩, ⟨14, 10⟩, ⟨15, 10⟩]

/-- A 20 x 20 board whose head sits in column 0 with the Fruit just across the left
edge. -/
def edgeBoard : GameBoard :=
  { width := 400, height := 400, cellSize := 20,
    snake := { segments := [⟨0, 5⟩, ⟨1, 5⟩], direction := Direction.Left },
    fruit := ⟨19, 5⟩, score := 0, gameOver := false }

/-- A 20 x 20 board whose head sits in column 0 with the Fruit three cells across the left
edge. -/
def farEdgeBoard : GameBoard :=
  { width := 400, height := 400, cellSize := 20,
    snake := { segments := [⟨0, 5⟩, ⟨1, 5⟩], direction := Direction.Left },
    fruit := ⟨17, 5⟩, score := 0, gameOver := false }

/-- A board of 3 by 2 cells (`gridWidth = 3`, `gridHeight = 2`) with a Body in its
grid. -/
def wideBoard : GameBoard :=
  { width := 60, height := 40, cellSize := 20,
    snake := { segments := [⟨2, 0⟩, ⟨1, 0⟩], direction := Direction.Right },
    fruit := ⟨0, 1⟩, score := 0, gameOver := false }

/-- A board of 2 by 3 cells (`gridWidth = 2`, `gridHeight = 3`) with a Body in its
grid. -/
def tallBoard : GameBoard :=
  { width := 40, height := 60, cellSize := 20,
    snake := { segments := [⟨0, 2⟩, ⟨0, 1⟩], direction := Direction.Down },
    fruit := ⟨1, 0⟩, score := 0, gameOver := false }

/-- A board of 2 by 2 cells whose Body covers every cell of the grid. -/
def fullBoard : GameBoard :=
  { width := 40, height := 40, cellSize := 20,
    snake := { segments := [⟨0, 0⟩, ⟨0, 1⟩, ⟨1, 1⟩, ⟨1, 0⟩], direction := Direction.Up },
    fruit := ⟨1, 1⟩, score := 2, gameOver := false }

/-- The board `collisionBoard` with the Fruit on the cell `(10, 10)`. -/
def centreFruitBoard : GameBoard :=
  { collisionBoard with fruit := ⟨10, 10⟩ }

/-! ## Occupancy grids -/

theorem inRange_iff (g : BoolGrid) (i j : Int) :
    g.inRange i j = true ↔ 0 ≤ i ∧ i < g.rows ∧ 0 ≤ j ∧ j < g.cols := by
  simp [BoolGrid.inRange, and_assoc]

theorem writeAll_spec (v : Bool) (segs : List iPoint2D) :
    ∀ g : BoolGrid, (∀ s ∈ segs, g.inRange s.x s.y = true) →
      ∃ g1, BoolGrid.writeAll v g segs = some g1 ∧ g1.rows = g.rows ∧ g1.cols = g.cols ∧
        ∀ p : iPoint2D, 0 ≤ p.x → 0 ≤ p.y →
          g1.cell p.x.toNat p.y.toNat = if p ∈ segs then v else g.cell p.x.toNat p.y.toNat := by
  induction segs with
  | nil => intro g _; exact ⟨g, rfl, rfl, rfl, by simp⟩
  | cons s rest ih =>
    intro g hin
    have hs : g.inRange s.x s.y = true := hin s (List.mem_cons_self _ _)
    have hs2 := (inRange_iff g s.x s.y).1 hs
    obtain ⟨g1, h1, hr, hc, hcell⟩ := ih
      { g with cell := fun a b => if a = s.x.toNat ∧ b = s.y.toNat then v else g.cell a b }
      (fun t ht => by
        have := hin t (List.mem_cons_of_mem _ ht)
        simpa [BoolGrid.inRange] using this)
    refine ⟨g1, ?_, hr, hc, ?_⟩
    · simp [BoolGrid.writeAll, BoolGrid.write, hs, h1]
    · intro p hx hy
      rw [hcell p hx hy]
      by_cases hp : p ∈ rest
      · simp [hp]
      · have hps : (p.x.toNat = s.x.toNat ∧ p.y.toNat = s.y.toNat) ↔ p = s := by
          constructor
          · rintro ⟨h1, h2⟩
            have e1 : p.x = s.x := by omega
            have e2 : p.y = s.y := by omega
            cases p; cases s; simp_all
          · rintro rfl; exact ⟨rfl, rfl⟩
        by_cases hq : p = s
        · simp [hp, hq]
        · have hq2 : ¬ (p.x.toNat = s.x.toNat ∧ p.y.toNat = s.y.toNat) := fun h => hq (hps.1 h)
          simp only [hp, List.mem_cons, hq, or_self, if_false]
          rw [if_neg hq2]

theorem writeAll_none (v : Bool) (segs : List iPoint2D) :
    ∀ g : BoolGrid, (∃ s ∈ segs, g.inRange s.x s.y = false) →
      BoolGrid.writeAll v g segs = none := by
  induction segs with
  | nil => intro g h; obtain ⟨s, hs, _⟩ := h; cases hs
  | cons s rest ih =>
    intro g h
    by_cases hs : g.inRange s.x s.y = true
    · simp only [BoolGrid.writeAll, BoolGrid.write, hs, if_true]
      apply ih
      obtain ⟨t, ht, htr⟩ := h
      rcases List.mem_cons.1 ht with rfl | ht
      · simp [hs] at htr
      · exact ⟨t, ht, by simpa [BoolGrid.inRange] using htr⟩
    · simp [BoolGrid.writeAll, BoolGrid.write, hs]

theorem mem_loopCells (w h : Int) (p : iPoint2D) : p ∈ loopCells w h ↔ inGrid w h p := by
  obtain ⟨px, py⟩ := p
  unfold loopCells inGrid
  simp only [List.mem_flatMap, List.mem_map, List.mem_range, Int.lt_toNat, iPoint2D.mk.injEq]
  constructor
  · rintro ⟨a, ha, b, hb, hx, hy⟩
    subst hx hy
    exact ⟨Int.ofNat_nonneg a, ha, Int.ofNat_nonneg b, hb⟩
  · rintro ⟨h1, h2, h3, h4⟩
    exact ⟨px.toNat, by rw [Int.toNat_of_nonneg h1]; exact h2, py.toNat,
      by rw [Int.toNat_of_nonneg h3]; exact h4, Int.toNat_of_nonneg h1, Int.toNat_of_nonneg h3⟩

/-! ## Fruit placement -/

theorem setFruitToRandom_frame (gameBoard after : GameBoard) (rnd : Nat)
    (h : gameBoard.setFruitToRandom rnd = some after) :
    after = { gameBoard with fruit := after.fruit } := by
  unfold GameBoard.setFruitToRandom at h
  split at h
  · cases h
  · split at h
    · cases h
    · split at h
      · cases h
      · cases h; rfl
      · cases h; rfl

theorem validPositions_spec (gameBoard : GameBoard) (n : Int) (hsq : squareBoard gameBoard n) (v : Bool) :
    ∃ g, BoolGrid.filled (gameBoard.height.tdiv gameBoard.cellSize)
          (gameBoard.width.tdiv gameBoard.cellSize) v = some g ∧
      ∃ g1, BoolGrid.writeAll (!v) g gameBoard.snake.segments = some g1 ∧
        g1.rows = n.toNat ∧ g1.cols = n.toNat ∧
        ∀ p : iPoint2D, inGrid n n p →
          g1.cell p.x.toNat p.y.toNat = if p ∈ gameBoard.snake.segments then !v else v := by
  obtain ⟨hn, hw, hh, hbody⟩ := hsq
  unfold GameBoard.gridWidth at hw
  unfold GameBoard.gridHeight at hh
  have hn0 : (0 : Int) ≤ n := by omega
  refine ⟨⟨n.toNat, n.toNat, fun _ _ => v⟩, by simp [BoolGrid.filled, hw, hh, hn0], ?_⟩
  obtain ⟨g1, h1, hr, hc, hcell⟩ := writeAll_spec (!v) gameBoard.snake.segments
    ⟨n.toNat, n.toNat, fun _ _ => v⟩ (fun s hs => by
      obtain ⟨a, b, c, d⟩ := hbody s hs
      rw [inRange_iff]
      simp only [Int.toNat_of_nonneg hn0]
      exact ⟨a, b, c, d⟩)
  exact ⟨g1, h1, hr, hc, fun p hp => hcell p hp.1 hp.2.2.1⟩

theorem possiblePositions_spec (gameBoard : GameBoard) (n : Int) (hsq : squareBoard gameBoard n)
    (g1 : BoolGrid) (hr : g1.rows = n.toNat) (hc : g1.cols = n.toNat)
    (hcell : ∀ p : iPoint2D, inGrid n n p →
      g1.cell p.x.toNat p.y.toNat = if p ∈ gameBoard.snake.segments then false else true) :
    ∃ l, possiblePositions g1 n n = some l ∧
      ∀ p, p ∈ l ↔ inGrid n n p ∧ p ∉ gameBoard.snake.segments := by
  have hn0 : (0 : Int) ≤ n := by have := hsq.1; omega
  refine ⟨(loopCells n n).filter fun p => g1.cell p.x.toNat p.y.toNat, ?_, ?_⟩
  · unfold possiblePositions
    rw [if_pos]
    rw [List.all_eq_true]
    intro p hp
    obtain ⟨a, b, c, d⟩ := (mem_loopCells n n p).1 hp
    rw [inRange_iff, hr, hc]
    simp only [Int.toNat_of_nonneg hn0]
    exact ⟨a, b, c, d⟩
  · intro p
    rw [List.mem_filter, mem_loopCells]
    constructor
    · rintro ⟨hg, hv⟩
      refine ⟨hg, fun hmem => ?_⟩
      rw [hcell p hg, if_pos hmem] at hv
      cases hv
    · rintro ⟨hg, hnot⟩
      exact ⟨hg, by rw [hcell p hg, if_neg hnot]⟩

/-- C9. On a square board whose Body lies in the grid, `GameBoard::setFruitToRandom`
returns for every value of `rand()`; it changes nothing but the Fruit; when some grid cell
is not a Body cell the new Fruit is an in-grid cell that is not a Body cell; when every
grid cell is a Body cell the board, and so the Fruit, is left as it was. -/
theorem setFruitToRandom_spec (gameBoard : GameBoard) (n : Int) (rnd : Nat)
    (hsq : squareBoard gameBoard n) :
    ∃ after, gameBoard.setFruitToRandom rnd = some after ∧
      after = { gameBoard with fruit := after.fruit } ∧
      ((∃ p, inGrid n n p ∧ p ∉ gameBoard.snake.segments) →
        inGrid n n after.fruit ∧ after.fruit ∉ gameBoard.snake.segments) ∧
      ((∀ p, inGrid n n p → p ∈ gameBoard.snake.segments) → after.fruit = gameBoard.fruit) := by
  obtain ⟨g, hg, g1, hg1, hr, hc, hcell⟩ := validPositions_spec gameBoard n hsq true
  obtain ⟨l, hl, hmem⟩ := possiblePositions_spec gameBoard n hsq g1 hr hc
    (by simpa using hcell)
  have hw : gameBoard.width.tdiv gameBoard.cellSize = n := hsq.2.1
  have hh : gameBoard.height.tdiv gameBoard.cellSize = n := hsq.2.2.1
  have hg1f : BoolGrid.writeAll false g gameBoard.snake.segments = some g1 := by simpa using hg1
  rw [hh, hw] at hg
  cases l with
  | nil =>
    refine ⟨gameBoard, ?_, rfl, ?_, fun _ => rfl⟩
    · simp only [GameBoard.setFruitToRandom, hw, hh, hg, hg1f, hl]
    · rintro ⟨p, hp, hnot⟩
      have := (hmem p).2 ⟨hp, hnot⟩
      cases this
  | cons q qs =>
    have hidx : rnd % (q :: qs).length < (q :: qs).length := Nat.mod_lt _ (by simp)
    have hin : (q :: qs).getD (rnd % (q :: qs).length) q ∈ q :: qs := by
      rw [List.getD_eq_getElem _ _ hidx]
      exact List.getElem_mem _
    refine ⟨{ gameBoard with fruit := (q :: qs).getD (rnd % (q :: qs).length) q }, ?_, rfl, ?_, ?_⟩
    · simp only [GameBoard.setFruitToRandom, hw, hh, hg, hg1f, hl]
    · intro _
      exact (hmem _).1 hin
    · intro hall
      have := (hmem q).1 (List.mem_cons_self _ _)
      exact absurd (hall q this.1) this.2

/-! ## Body movement -/

theorem update_wrap_or_free (trainingAI : Bool) (rnd : Nat) (gameBoard : GameBoard)
    (front : iPoint2D) (rest : List iPoint2D)
    (hrun : gameBoard.gameOver = false)
    (hsegs : gameBoard.snake.segments = front :: rest)
    (h : Snake.movedHead gameBoard front ≠ Snake.stepHead gameBoard.snake.direction front ∨
      Snake.movedHead gameBoard front ∉ gameBoard.snake.segments) :
    Snake.update trainingAI rnd gameBoard =
      Snake.moveSnake rnd gameBoard (Snake.movedHead gameBoard front) := by
  unfold Snake.update Snake.movedHead
  unfold Snake.movedHead at h
  simp only [hrun, hsegs, Bool.false_eq_true, if_false]
  rw [hsegs] at h
  split_ifs with h1 h2 h3 h4 h5 <;> first | rfl | (exfalso; simp_all)

theorem moveSnake_fruit (rnd : Nat) (gameBoard after : GameBoard) (head : iPoint2D)
    (hf : head = gameBoard.fruit) (h : Snake.moveSnake rnd gameBoard head = some after) :
    after.snake.segments = head :: gameBoard.snake.segments ∧
      after.snake.direction = gameBoard.snake.direction ∧
      after.score = gameBoard.score + 1 ∧ after.gameOver = gameBoard.gameOver := by
  unfold Snake.moveSnake at h
  simp only [hf, if_true] at h
  have := setFruitToRandom_frame _ _ _ h
  rw [this]
  simp [hf]

theorem moveSnake_other (rnd : Nat) (gameBoard : GameBoard) (head : iPoint2D)
    (hf : head ≠ gameBoard.fruit) :
    Snake.moveSnake rnd gameBoard head =
      some { gameBoard with
        snake := { gameBoard.snake with segments := (head :: gameBoard.snake.segments).dropLast } } := by
  unfold Snake.moveSnake
  simp only [hf, if_false]

theorem moveSnake_defined (rnd : Nat) (gameBoard : GameBoard) (head : iPoint2D) (n : Int)
    (hsq : squareBoard gameBoard n) (hhead : inGrid n n head) :
    ∃ after, Snake.moveSnake rnd gameBoard head = some after := by
  by_cases hf : head = gameBoard.fruit
  · unfold Snake.moveSnake
    simp only [hf, if_true]
    obtain ⟨after, h, _⟩ := setFruitToRandom_spec
      { gameBoard with
        snake := { gameBoard.snake with segments := gameBoard.fruit :: gameBoard.snake.segments },
        score := gameBoard.score + 1 } n rnd
      ⟨hsq.1, hsq.2.1, hsq.2.2.1, fun s hs => by
        rcases List.mem_cons.1 hs with rfl | hs
        · exact hf ▸ hhead
        · exact hsq.2.2.2 s hs⟩
    exact ⟨after, h⟩
  · exact ⟨_, moveSnake_other rnd gameBoard head hf⟩

theorem emod_succ_wrap (v n : Int) (h0 : 0 ≤ v) (h1 : v < n) :
    (v + 1) % n = if v + 1 ≥ n then 0 else v + 1 := by
  split_ifs with a
  · have : v + 1 = n := by omega
    rw [this, Int.emod_self]
  · rw [Int.emod_eq_of_lt (by omega) (by omega)]

theorem emod_pred_wrap (v n : Int) (h0 : 0 ≤ v) (h1 : v < n) :
    (v - 1) % n = if v - 1 < 0 then n - 1 else v - 1 := by
  split_ifs with a
  · have : v = 0 := by omega
    subst this
    rw [← Int.add_emod_self, Int.emod_eq_of_lt (by omega) (by omega)]
    omega
  · rw [Int.emod_eq_of_lt (by omega) (by omega)]

theorem movedHead_eq_toroidalAdvance (gameBoard : GameBoard) (front : iPoint2D)
    (hcs : gameBoard.cellSize = cellSize)
    (hin : inGrid gameBoard.gridWidth gameBoard.gridHeight front) :
    Snake.movedHead gameBoard front =
      toroidalAdvance gameBoard.gridWidth gameBoard.gridHeight
        gameBoard.snake.direction front := by
  obtain ⟨hx0, hx1, hy0, hy1⟩ := hin
  obtain ⟨x, y⟩ := front
  simp only at hx0 hx1 hy0 hy1
  unfold Snake.movedHead Snake.stepHead toroidalAdvance
  unfold GameBoard.gridWidth GameBoard.gridHeight at *
  rw [hcs] at *
  cases gameBoard.snake.direction <;> simp only [] <;>
    first
    | rw [emod_succ_wrap _ _ hx0 hx1]
    | rw [emod_pred_wrap _ _ hx0 hx1]
    | rw [emod_succ_wrap _ _ hy0 hy1]
    | rw [emod_pred_wrap _ _ hy0 hy1]
    | skip
  all_goals split_ifs <;> first | rfl | (exfalso; omega)

/-- C7. On a non-terminal board whose advanced head cell (the local `head` of
`Snake::update` after its wrap branches: one step along the heading, wrapped at the edges)
is not a Body cell: when that cell is not the Fruit, `Snake::update` returns the board
with Body "new head, then the old Body without its last cell", same length, same score;
when it is the Fruit, every result of `Snake::update` has Body "new head, then the whole
old Body", length one more and score one more, and there is such a result on a square
board whose Body and Fruit lie in the grid; in both cases a Body of length at least 2
keeps length at least 2.  On a board whose `cellSize` is the global cell size and whose
head is a cell of the grid, the advanced head cell is the toroidal step of the head. -/
theorem update_moves_body (trainingAI : Bool) (rnd : Nat) (gameBoard : GameBoard)
    (front : iPoint2D) (rest : List iPoint2D)
    (hrun : gameBoard.gameOver = false)
    (hsegs : gameBoard.snake.segments = front :: rest)
    (hfree : Snake.movedHead gameBoard front ∉ gameBoard.snake.segments) :
    (Snake.movedHead gameBoard front ≠ gameBoard.fruit →
      ∃ after, Snake.update trainingAI rnd gameBoard = some after ∧
        after.snake.segments =
          Snake.movedHead gameBoard front :: gameBoard.snake.segments.dropLast ∧
        after.snake.segments.length = gameBoard.snake.segments.length ∧
        after.score = gameBoard.score) ∧
    (Snake.movedHead gameBoard front = gameBoard.fruit →
      (∀ after, Snake.update trainingAI rnd gameBoard = some after →
        after.snake.segments = Snake.movedHead gameBoard front :: gameBoard.snake.segments ∧
        after.snake.segments.length = gameBoard.snake.segments.length + 1 ∧
        after.score = gameBoard.score + 1) ∧
      (∀ n, squareBoard gameBoard n → inGrid n n gameBoard.fruit →
        ∃ after, Snake.update trainingAI rnd gameBoard = some after)) ∧
    (∀ after, Snake.update trainingAI rnd gameBoard = some after →
      2 ≤ gameBoard.snake.segments.length → 2 ≤ after.snake.segments.length) ∧
    (gameBoard.cellSize = cellSize →
      inGrid gameBoard.gridWidth gameBoard.gridHeight front →
      Snake.movedHead gameBoard front =
        toroidalAdvance gameBoard.gridWidth gameBoard.gridHeight
          gameBoard.snake.direction front) := by
  have hupd := update_wrap_or_free trainingAI rnd gameBoard front rest hrun hsegs (Or.inr hfree)
  rw [hupd]
  refine ⟨fun hf => ?_, fun hf => ⟨fun after h => ?_, fun n hsq hin => ?_⟩,
    fun after h hlen => ?_, fun hcs hin => movedHead_eq_toroidalAdvance gameBoard front hcs hin⟩
  · refine ⟨_, moveSnake_other rnd gameBoard _ hf, ?_, ?_, rfl⟩
    · simp [hsegs, List.dropLast]
    · simp [hsegs]
  · obtain ⟨h1, _, h3, _⟩ := moveSnake_fruit rnd gameBoard after _ hf h
    exact ⟨h1, by rw [h1]; simp, h3⟩
  · exact moveSnake_defined rnd gameBoard _ n hsq (hf ▸ hin)
  · by_cases hf : Snake.movedHead gameBoard front = gameBoard.fruit
    · obtain ⟨h1, _⟩ := moveSnake_fruit rnd gameBoard after _ hf h
      rw [h1]; simp; omega
    · rw [moveSnake_other rnd gameBoard _ hf] at h
      cases h
      simp [hsegs] at hlen ⊢
      omega

/-- C8. Edge wrap: on a non-terminal board whose `cellSize` is the global cell size and
whose head `(x, y)` is a cell of the grid, when the head sits on an edge and heads off it
(`x = 0` heading Left, `x = gridWidth - 1` heading Right, `y = 0` heading Up,
`y = gridHeight - 1` heading Down) every result of `Snake::update` has as new head the
cell `h` on the opposite edge (`(gridWidth-1, y)`, `(0, y)`, `(x, gridHeight-1)`,
`(x, 0)`), and `Snake::update` has a result when `h` is not the Fruit or the board is
square with Body and Fruit in the grid. -/
theorem update_wraps_at_edges (trainingAI : Bool) (rnd : Nat) (gameBoard : GameBoard)
    (x y : Int) (rest : List iPoint2D) (h : iPoint2D)
    (hrun : gameBoard.gameOver = false)
    (hcs : gameBoard.cellSize = cellSize)
    (hsegs : gameBoard.snake.segments = ⟨x, y⟩ :: rest)
    (hin : inGrid gameBoard.gridWidth gameBoard.gridHeight ⟨x, y⟩)
    (hedge :
      (gameBoard.snake.direction = Direction.Left ∧ x = 0 ∧ h = ⟨gameBoard.gridWidth - 1, y⟩) ∨
      (gameBoard.snake.direction = Direction.Right ∧ x = gameBoard.gridWidth - 1 ∧ h = ⟨0, y⟩) ∨
      (gameBoard.snake.direction = Direction.Up ∧ y = 0 ∧ h = ⟨x, gameBoard.gridHeight - 1⟩) ∨
      (gameBoard.snake.direction = Direction.Down ∧ y = gameBoard.gridHeight - 1 ∧ h = ⟨x, 0⟩)) :
    (∀ after, Snake.update trainingAI rnd gameBoard = some after →
      after.snake.segments.head? = some h) ∧
    ((h ≠ gameBoard.fruit ∨ ∃ n, squareBoard gameBoard n ∧ inGrid n n gameBoard.fruit) →
      ∃ after, Snake.update trainingAI rnd gameBoard = some after) := by
  obtain ⟨hx0, hx1, hy0, hy1⟩ := hin
  simp only at hx0 hx1 hy0 hy1
  have hmoved : Snake.movedHead gameBoard ⟨x, y⟩ = h ∧
      Snake.movedHead gameBoard ⟨x, y⟩ ≠ Snake.stepHead gameBoard.snake.direction ⟨x, y⟩ := by
    unfold GameBoard.gridWidth GameBoard.gridHeight at *
    unfold Snake.movedHead Snake.stepHead
    rw [hcs] at *
    rcases hedge with ⟨hd, rfl, rfl⟩ | ⟨hd, rfl, rfl⟩ | ⟨hd, rfl, rfl⟩ | ⟨hd, rfl, rfl⟩ <;>
      rw [hd] <;> simp only [] <;> split_ifs <;>
      first | (exfalso; omega) | (simp; omega)
  obtain ⟨hm, hne⟩ := hmoved
  have hupd := update_wrap_or_free trainingAI rnd gameBoard ⟨x, y⟩ rest hrun hsegs (Or.inl hne)
  rw [hupd, hm]
  constructor
  · intro after hafter
    by_cases hf : h = gameBoard.fruit
    · rw [(moveSnake_fruit rnd gameBoard after h hf hafter).1]; rfl
    · rw [moveSnake_other rnd gameBoard h hf] at hafter
      cases hafter
      simp [hsegs]
  · rintro (hf | ⟨n, hsq, hfin⟩)
    · exact ⟨_, moveSnake_other rnd gameBoard h hf⟩
    · by_cases hf : h = gameBoard.fruit
      · exact moveSnake_defined rnd gameBoard h n hsq (hf ▸ hfin)
      · exact ⟨_, moveSnake_other rnd gameBoard h hf⟩

/-- C4. In training mode `Snake::update` on `collisionBoard`, whose head advances into
the Body cell `(5, 6)`: the Body after the update is `[(5, 6), (10, 10)]`, the collided
cell in front of the first start cell, and not the start state `[(10, 10), (9, 10)]`.
The heading is Right, the score 0 and the terminal flag false. -/
theorem update_training_collision_body (rnd : Nat) :
    Snake.stepHead collisionBoard.snake.direction ⟨5, 5⟩ ∈ collisionBoard.snake.segments ∧
    Snake.reset.segments = [⟨10, 10⟩, ⟨9, 10⟩] ∧
    Snake.update true rnd collisionBoard =
      some { collisionBoard with
        snake := { segments := [⟨5, 6⟩, ⟨10, 10⟩], direction := Direction.Right },
        score := 0, gameOver := false } := by
  refine ⟨by decide, by decide, ?_⟩
  rfl

/-- C5. Outside training mode `Snake::update` on `wrapBoard`, whose head advances
across the left edge into the Body cell `(19, 5)`: the terminal flag stays false and the
Body moves on, with the cell `(19, 5)` in it twice. -/
theorem update_wrap_collision_missed (rnd : Nat) :
    Snake.movedHead wrapBoard ⟨0, 5⟩ = ⟨19, 5⟩ ∧
    (⟨19, 5⟩ : iPoint2D) ∈ wrapBoard.snake.segments ∧
    Snake.update false rnd wrapBoard =
      some { wrapBoard with
        snake := { segments := [⟨19, 5⟩, ⟨0, 5⟩, ⟨0, 6⟩, ⟨19, 6⟩, ⟨19, 5⟩],
                   direction := Direction.Left } } := by
  refine ⟨by decide, by decide, ?_⟩
  rfl

/-- C6. The Body of `wrapBoard` lies in the 20 x 20 grid, has pairwise distinct cells
and does not cover the Fruit, and after one `Snake::update`, in or out of training mode,
the Body has a cell twice. -/
theorem update_breaks_distinctness (trainingAI : Bool) (rnd : Nat) :
    squareBoard wrapBoard 20 ∧ wrapBoard.snake.segments.Nodup ∧
    wrapBoard.fruit ∉ wrapBoard.snake.segments ∧
    ∃ after, Snake.update trainingAI rnd wrapBoard = some after ∧
      ¬ after.snake.segments.Nodup := by
  refine ⟨by decide, by decide, by decide, { wrapBoard with
        snake := { segments := [⟨19, 5⟩, ⟨0, 5⟩, ⟨0, 6⟩, ⟨19, 6⟩, ⟨19, 5⟩],
                   direction := Direction.Left } }, ?_, ?_⟩
  · cases trainingAI <;> rfl
  · decide

/-! ## Decision policy -/

/-- C10 (amended). Decision rule of `AISnake::activation` on the outputs `o 0 .. o 3` and
a Body with heading `h`, where an output qualifies when its absolute distance from 1 is
at most the value of the `double` literal `0.05` (`3602879701896397 / 2^56`): when no
output qualifies the Body is left as it is; when `i` is the least index whose output
qualifies, the heading becomes the heading of index `i`, unless that heading is directly
opposite `h`, in which case it stays `h` (later indices are not tried).  Outputs
`[0.97, 0, 0, 0]` with heading Left give heading Up, and outputs `[0.5, 0.5, 0.5, 0.5]`
leave the Body as it is. -/
theorem moveDecision_rule (o : Fin 4 → ℚ) (s : Snake) (segments : List iPoint2D) :
    ((∀ i, ¬ qualifies (o i)) → AISnake.moveDecision (o 0) (o 1) (o 2) (o 3) s = s) ∧
    (∀ i, qualifies (o i) → (∀ j, j < i → ¬ qualifies (o j)) →
      AISnake.moveDecision (o 0) (o 1) (o 2) (o 3) s =
        { s with direction :=
            if headingOfIndex i = s.direction.opposite then s.direction else headingOfIndex i }) ∧
    AISnake.moveDecision 0.97 0 0 0 ⟨segments, Direction.Left⟩ = ⟨segments, Direction.Up⟩ ∧
    AISnake.moveDecision 0.5 0.5 0.5 0.5 s = s := by
  refine ⟨fun hno => ?_, fun i hi hleast => ?_, ?_, ?_⟩
  · have h0 := hno 0
    have h1 := hno 1
    have h2 := hno 2
    have h3 := hno 3
    unfold qualifies at h0 h1 h2 h3
    simp only [AISnake.moveDecision, distance, h0, h1, h2, h3, if_false]
  · obtain ⟨segs, d⟩ := s
    fin_cases i
    · unfold qualifies at hi
      simp only [AISnake.moveDecision, distance]
      have hi0 : |o 0 - 1| ≤ literal_0_05 := hi
      rw [if_pos hi0]
      cases d <;> simp [Snake.onUpKey, headingOfIndex, Direction.opposite]
    · have h0 := hleast 0 (by decide)
      unfold qualifies at hi h0
      simp only [AISnake.moveDecision, distance]
      have hi1 : |o 1 - 1| ≤ literal_0_05 := hi
      rw [if_neg h0, if_pos hi1]
      cases d <;> simp [Snake.onDownKey, headingOfIndex, Direction.opposite]
    · have h0 := hleast 0 (by decide)
      have h1 := hleast 1 (by decide)
      unfold qualifies at hi h0 h1
      simp only [AISnake.moveDecision, distance]
      have hi2 : |o 2 - 1| ≤ literal_0_05 := hi
      rw [if_neg h0, if_neg h1, if_pos hi2]
      cases d <;> simp [Snake.onLeftKey, headingOfIndex, Direction.opposite]
    · have h0 := hleast 0 (by decide)
      have h1 := hleast 1 (by decide)
      have h2 := hleast 2 (by decide)
      unfold qualifies at hi h0 h1 h2
      simp only [AISnake.moveDecision, distance]
      have hi3 : |o 3 - 1| ≤ literal_0_05 := hi
      rw [if_neg h0, if_neg h1, if_neg h2, if_pos hi3]
      cases d <;> simp [Snake.onRightKey, headingOfIndex, Direction.opposite]
  · have : distance (0.97 : ℚ) 1 ≤ literal_0_05 := by
      unfold distance literal_0_05; rw [abs_le]; constructor <;> norm_num
    simp [AISnake.moveDecision, this, Snake.onUpKey]
  · have : ¬ distance (0.5 : ℚ) 1 ≤ literal_0_05 := by
      unfold distance literal_0_05; rw [abs_le]; norm_num
    simp only [AISnake.moveDecision, this, if_false]

/-- C10, counterexample. With outputs `[1 + 3602879701896397 / 2^56, 0, 0, 0]` (the first
is a value of 57 significant bits, which a 64-bit-mantissa `long double` holds) and heading
Left no output is within 0.05 of 1, so the rule with the threshold 0.05 keeps the heading,
but the code turns the heading to Up, because the `double` literal `0.05` is greater than
one twentieth. -/
theorem moveDecision_band_counterexample :
    (1 : ℚ) / 20 < literal_0_05 ∧
    ¬ (|(1 + literal_0_05) - 1| ≤ (0.05 : ℚ)) ∧ ¬ (|(0 : ℚ) - 1| ≤ (0.05 : ℚ)) ∧
    AISnake.moveDecision (1 + literal_0_05) 0 0 0
        { segments := [⟨10, 10⟩, ⟨9, 10⟩], direction := Direction.Left } =
      { segments := [⟨10, 10⟩, ⟨9, 10⟩], direction := Direction.Up } := by
  refine ⟨by unfold literal_0_05; norm_num, ?_, ?_, ?_⟩
  · unfold literal_0_05; rw [abs_le]; norm_num
  · rw [abs_le]; norm_num
  · have : distance (1 + literal_0_05) 1 ≤ literal_0_05 := by
      unfold distance
      rw [add_sub_cancel_left, abs_of_nonneg (by unfold literal_0_05; norm_num)]
    simp [AISnake.moveDecision, this, Snake.onUpKey]

/-- Witness of C7 on `smallBoard`: the head moves across the left edge onto the Fruit. -/
theorem update_moves_body_witness :
    ∃ after, Snake.update false 7 smallBoard = some after ∧
      after.snake.segments = [⟨2, 1⟩, ⟨0, 1⟩, ⟨1, 1⟩, ⟨1, 0⟩] ∧ after.score = 2 := by
  have h := update_moves_body false 7 smallBoard ⟨0, 1⟩ [⟨1, 1⟩, ⟨1, 0⟩] rfl rfl (by decide)
  obtain ⟨after, hafter⟩ := (h.2.1 (by decide)).2 3 (by decide) (by decide)
  obtain ⟨h1, _, h3⟩ := (h.2.1 (by decide)).1 after hafter
  exact ⟨after, hafter, h1, h3⟩

/-- Witness of C8 on `smallBoard`: from column 0 heading Left the new head is in column
`gridWidth - 1 = 2`. -/
theorem update_wraps_at_edges_witness :
    ∃ after, Snake.update true 0 smallBoard = some after ∧
      after.snake.segments.head? = some ⟨2, 1⟩ := by
  have h := update_wraps_at_edges true 0 smallBoard 0 1 [⟨1, 1⟩, ⟨1, 0⟩] ⟨2, 1⟩ rfl rfl rfl
    (by decide) (Or.inl ⟨rfl, rfl, by decide⟩)
  obtain ⟨after, hafter⟩ := h.2 (Or.inr ⟨3, by decide, by decide⟩)
  exact ⟨after, hafter, h.1 after hafter⟩

/-- Witness of C9 on `smallBoard`, where six of the nine cells are free. -/
theorem setFruitToRandom_spec_witness :
    squareBoard smallBoard 3 ∧
    ∃ after, smallBoard.setFruitToRandom 12345 = some after ∧
      inGrid 3 3 after.fruit ∧ after.fruit ∉ smallBoard.snake.segments := by
  refine ⟨by decide, ?_⟩
  obtain ⟨after, h, _, hfree, _⟩ := setFruitToRandom_spec smallBoard 3 12345 (by decide)
  exact ⟨after, h, hfree ⟨⟨0, 0⟩, by decide, by decide⟩⟩

/-! ## Toroidal path planner: the open list -/

theorem splits_perm : ∀ (l : List Node) (n : Node) (r : List Node),
    (n, r) ∈ splits l → l.Perm (n :: r)
  | [], n, r, h => by cases h
  | m :: l, n, r, h => by
    simp only [splits, List.mem_cons, List.mem_map] at h
    rcases h with h | ⟨s, hs, hsr⟩
    · cases h; exact List.Perm.refl _
    · cases hsr
      exact ((splits_perm l s.1 s.2 hs).cons m).trans (List.Perm.swap _ _ _)

theorem mem_splits_of_mem : ∀ (l : List Node) (n : Node), n ∈ l → ∃ r, (n, r) ∈ splits l
  | [], n, h => by cases h
  | m :: l, n, h => by
    rcases List.mem_cons.1 h with rfl | h
    · exact ⟨l, by simp [splits]⟩
    · obtain ⟨r, hr⟩ := mem_splits_of_mem l n h
      exact ⟨m :: r, by
        simp only [splits, List.mem_cons, List.mem_map]
        exact Or.inr ⟨(n, r), hr, rfl⟩⟩

theorem exists_top : ∀ (l : List Node), l ≠ [] → ∃ n ∈ l, ∀ m ∈ l, n.fCost ≤ m.fCost
  | [], h => absurd rfl h
  | [a], _ => ⟨a, by simp, by simp⟩
  | a :: b :: l, _ => by
    obtain ⟨n, hn, hmin⟩ := exists_top (b :: l) (by simp)
    by_cases hle : a.fCost ≤ n.fCost
    · refine ⟨a, by simp, fun m hm => ?_⟩
      rcases List.mem_cons.1 hm with rfl | hm
      · exact le_refl _
      · exact le_trans hle (hmin m hm)
    · refine ⟨n, List.mem_cons_of_mem _ hn, fun m hm => ?_⟩
      rcases List.mem_cons.1 hm with rfl | hm
      · omega
      · exact hmin m hm

theorem popTop_some (choice : Nat) (l : List Node) (n : Node) (r : List Node)
    (h : popTop choice l = some (n, r)) :
    l.Perm (n :: r) ∧ ∀ m ∈ l, n.fCost ≤ m.fCost := by
  unfold popTop at h
  have hmem := List.getElem?_mem h
  rw [List.mem_filter] at hmem
  refine ⟨splits_perm l n r hmem.1, ?_⟩
  have := hmem.2
  simp only [isTop, List.all_eq_true, decide_eq_true_eq] at this
  exact this

theorem popTop_none (choice : Nat) (l : List Node) (h : popTop choice l = none) : l = [] := by
  by_contra hne
  obtain ⟨n, hn, hmin⟩ := exists_top l hne
  obtain ⟨r, hr⟩ := mem_splits_of_mem l n hn
  have hc : (n, r) ∈ (splits l).filter fun s => isTop l s.1 := by
    rw [List.mem_filter]
    refine ⟨hr, ?_⟩
    simp only [isTop, List.all_eq_true, decide_eq_true_eq]
    exact hmin
  unfold popTop at h
  rw [List.getElem?_eq_none_iff] at h
  have hpos : 0 < ((splits l).filter fun s => isTop l s.1).length := List.length_pos_of_mem hc
  have := Nat.mod_lt choice hpos
  omega

/-! ## Toroidal path planner: one relaxation -/

theorem mapSet_same {β : Type} (m : iPoint2D → Option β) (k : iPoint2D) (v : β) :
    mapSet m k v k = some v := by
  simp [mapSet]

theorem mapSet_other {β : Type} (m : iPoint2D → Option β) (k : iPoint2D) (v : β) (p : iPoint2D)
    (h : p ≠ k) : mapSet m k v p = m p := by
  simp [mapSet, h]

theorem mapSet_isSome {β : Type} (m : iPoint2D → Option β) (k : iPoint2D) (v : β) (p : iPoint2D)
    (h : (m p).isSome = true) : (mapSet m k v p).isSome = true := by
  unfold mapSet
  split_ifs <;> simp [h]

theorem relax_cases (grid : BoolGrid) (n : Int) (target cur : iPoint2D) (s : Search)
    (dir : iPoint2D) :
    (relax grid n n target cur s dir = s ∧
      (isValid (wrapNeighbor n n cur dir).x (wrapNeighbor n n cur dir).y grid = true →
        (s.gCost (wrapNeighbor n n cur dir)).isSome = true)) ∨
    (isValid (wrapNeighbor n n cur dir).x (wrapNeighbor n n cur dir).y grid = true ∧
      (s.gCost (wrapNeighbor n n cur dir) = none ∨
        ∃ g, s.gCost (wrapNeighbor n n cur dir) = some g ∧ (s.gCost cur).getD 0 + 1 < g) ∧
      relax grid n n target cur s dir =
        s.improve (wrapNeighbor n n cur dir) ((s.gCost cur).getD 0 + 1) cur target) := by
  unfold relax
  by_cases hv : isValid (wrapNeighbor n n cur dir).x (wrapNeighbor n n cur dir).y grid = true
  · simp only [hv, if_true]
    cases hg : s.gCost (wrapNeighbor n n cur dir) with
    | none => exact Or.inr ⟨trivial, Or.inl rfl, by simp⟩
    | some g =>
      by_cases hlt : (s.gCost cur).getD 0 + 1 < g
      · exact Or.inr ⟨trivial, Or.inr ⟨g, rfl, hlt⟩, by simp [hlt]⟩
      · exact Or.inl ⟨by simp [hlt], fun _ => rfl⟩
  · exact Or.inl ⟨by simp [hv], fun h => absurd h hv⟩

theorem isValid_inGrid (grid : BoolGrid) (n : Int) (hr : grid.rows = n.toNat)
    (hc : grid.cols = n.toNat) (p : iPoint2D) (h : isValid p.x p.y grid = true) :
    inGrid n n p := by
  unfold isValid at h
  simp only [Bool.and_eq_true, decide_eq_true_eq, hr, hc] at h
  obtain ⟨⟨⟨⟨h1, h2⟩, h3⟩, h4⟩, _⟩ := h
  refine ⟨h1, ?_, h3, ?_⟩ <;> omega

theorem mem_gridCells (n : Int) (p : iPoint2D) : p ∈ gridCells n ↔ inGrid n n p := by
  unfold gridCells
  rw [List.mem_toFinset, mem_loopCells]

theorem gridCells_card_le (n : Int) : (gridCells n).card ≤ n.toNat * n.toNat := by
  unfold gridCells
  refine le_trans (List.toFinset_card_le _) ?_
  unfold loopCells
  simp [List.length_flatMap, Function.comp_def]

theorem knownCount_le (n : Int) (s : Search) : knownCount n s ≤ (gridCells n).card :=
  Finset.card_filter_le _ _

theorem sum_point_update (F : Finset iPoint2D) (f f1 : iPoint2D → Nat) (p : iPoint2D)
    (hp : p ∈ F) (hoff : ∀ q, q ≠ p → f1 q = f q) :
    (∑ q in F, f1 q) + f p = (∑ q in F, f q) + f1 p := by
  rw [← Finset.add_sum_erase F f hp, ← Finset.add_sum_erase F f1 hp]
  have : ∑ q in F.erase p, f1 q = ∑ q in F.erase p, f q :=
    Finset.sum_congr rfl fun q hq => hoff q (Finset.ne_of_mem_erase hq)
  rw [this]
  omega

theorem knownCount_improve_ge (n : Int) (s : Search) (nb : iPoint2D) (t : Int)
    (cur target : iPoint2D) : knownCount n s ≤ knownCount n (s.improve nb t cur target) := by
  unfold knownCount
  apply Finset.card_le_card
  intro p hp
  rw [Finset.mem_filter] at hp ⊢
  exact ⟨hp.1, mapSet_isSome _ _ _ _ hp.2⟩

theorem knownCount_improve_new (n : Int) (s : Search) (nb : iPoint2D) (t : Int)
    (cur target : iPoint2D) (hnone : s.gCost nb = none) (hin : inGrid n n nb) :
    knownCount n s + 1 ≤ knownCount n (s.improve nb t cur target) := by
  unfold knownCount
  have hnot : nb ∉ (gridCells n).filter fun p => (s.gCost p).isSome := by
    rw [Finset.mem_filter]
    rintro ⟨_, h⟩
    rw [hnone] at h
    cases h
  rw [← Finset.card_insert_of_not_mem hnot]
  apply Finset.card_le_card
  intro p hp
  rw [Finset.mem_insert] at hp
  rw [Finset.mem_filter]
  rcases hp with rfl | hp
  · exact ⟨(mem_gridCells n p).2 hin, by simp [Search.improve, mapSet_same]⟩
  · rw [Finset.mem_filter] at hp
    exact ⟨hp.1, mapSet_isSome _ _ _ _ hp.2⟩

theorem searchInv_cost_nonneg {grid : BoolGrid} {n : Int} {start : iPoint2D} {s : Search}
    (inv : SearchInv grid n start s) (p : iPoint2D) (g : Int) (h : s.gCost p = some g) :
    0 ≤ g := by
  by_cases hp : p = start
  · subst hp
    rw [inv.start_cost] at h
    cases h
    exact le_refl _
  · have := inv.cost_pos p g h hp
    omega

theorem searchInv_improve {grid : BoolGrid} {n : Int} {start : iPoint2D} {s : Search}
    (inv : SearchInv grid n start s) (hr : grid.rows = n.toNat) (hc : grid.cols = n.toNat)
    (target cur nb : iPoint2D) (gc : Int) (hcur : s.gCost cur = some gc)
    (hedge : edge grid n cur nb)
    (hnew : s.gCost nb = none ∨ ∃ g, s.gCost nb = some g ∧ gc + 1 < g) :
    SearchInv grid n start (s.improve nb (gc + 1) cur target) := by
  have hgc : 0 ≤ gc := searchInv_cost_nonneg inv cur gc hcur
  have hnb_in : inGrid n n nb := isValid_inGrid grid n hr hc nb hedge.2
  have hne_start : nb ≠ start := by
    rintro rfl
    rcases hnew with h | ⟨g, h, hlt⟩
    · rw [inv.start_cost] at h; cases h
    · rw [inv.start_cost] at h; cases h; omega
  have hne_cur : cur ≠ nb := by
    rintro rfl
    rcases hnew with h | ⟨g, h, hlt⟩
    · rw [hcur] at h; cases h
    · rw [hcur] at h; cases h; omega
  have hcount : gc + 2 ≤ knownCount n (s.improve nb (gc + 1) cur target) := by
    rcases hnew with h | ⟨g, h, hlt⟩
    · have h1 := (inv.bound cur gc hcur).2
      have h2 := knownCount_improve_new n s nb (gc + 1) cur target h hnb_in
      omega
    · have h1 := (inv.bound nb g h).2
      have h2 := knownCount_improve_ge n s nb (gc + 1) cur target
      omega
  have hmono := knownCount_improve_ge n s nb (gc + 1) cur target
  refine ⟨?_, ?_, ?_, ?_, ?_, ?_⟩
  · show mapSet s.gCost nb (gc + 1) start = some 0
    rw [mapSet_other _ _ _ _ hne_start.symm]
    exact inv.start_cost
  · intro nd hnd
    show (mapSet s.gCost nb (gc + 1) nd.point).isSome = true
    simp only [Search.improve, List.mem_append, List.mem_singleton] at hnd
    rcases hnd with hnd | rfl
    · exact mapSet_isSome _ _ _ _ (inv.open_known nd hnd)
    · simp [mapSet_same]
  · intro p g hp hps
    change mapSet s.gCost nb (gc + 1) p = some g at hp
    by_cases hpn : p = nb
    · subst hpn
      rw [mapSet_same] at hp
      cases hp
      omega
    · rw [mapSet_other _ _ _ _ hpn] at hp
      exact inv.cost_pos p g hp hps
  · intro p g hp hps
    change mapSet s.gCost nb (gc + 1) p = some g at hp
    show ∃ q gq, mapSet s.parent nb cur p = some q ∧ mapSet s.gCost nb (gc + 1) q = some gq ∧ _
    by_cases hpn : p = nb
    · subst hpn
      rw [mapSet_same] at hp
      cases hp
      exact ⟨cur, gc, mapSet_same _ _ _, by rw [mapSet_other _ _ _ _ hne_cur]; exact hcur,
        le_refl _, hedge⟩
    · rw [mapSet_other _ _ _ _ hpn] at hp
      obtain ⟨q, gq, hq1, hq2, hq3, hq4⟩ := inv.link p g hp hps
      by_cases hqn : q = nb
      · subst hqn
        rcases hnew with h | ⟨g1, h, hlt⟩
        · rw [hq2] at h; cases h
        · rw [hq2] at h; cases h
          exact ⟨q, gc + 1, by rw [mapSet_other _ _ _ _ hpn]; exact hq1, mapSet_same _ _ _,
            by omega, hq4⟩
      · exact ⟨q, gq, by rw [mapSet_other _ _ _ _ hpn]; exact hq1,
          by rw [mapSet_other _ _ _ _ hqn]; exact hq2, hq3, hq4⟩
  · intro p g hp
    change mapSet s.gCost nb (gc + 1) p = some g at hp
    by_cases hpn : p = nb
    · subst hpn
      exact (inv.reach cur gc hcur).tail hedge
    · rw [mapSet_other _ _ _ _ hpn] at hp
      exact inv.reach p g hp
  · intro p g hp
    change mapSet s.gCost nb (gc + 1) p = some g at hp
    by_cases hpn : p = nb
    · subst hpn
      rw [mapSet_same] at hp
      cases hp
      exact ⟨hnb_in, by omega⟩
    · rw [mapSet_other _ _ _ _ hpn] at hp
      have := inv.bound p g hp
      exact ⟨this.1, by omega⟩

theorem potential_improve {grid : BoolGrid} {n : Int} {start : iPoint2D} {s : Search}
    (inv : SearchInv grid n start s) (hr : grid.rows = n.toNat) (hc : grid.cols = n.toNat)
    (target cur nb : iPoint2D) (gc : Int) (hcur : s.gCost cur = some gc)
    (hedge : edge grid n cur nb)
    (hnew : s.gCost nb = none ∨ ∃ g, s.gCost nb = some g ∧ gc + 1 < g) :
    potential n (s.improve nb (gc + 1) cur target) < potential n s := by
  have hgc : 0 ≤ gc := searchInv_cost_nonneg inv cur gc hcur
  have hnb_in : inGrid n n nb := isValid_inGrid grid n hr hc nb hedge.2
  have hsum := sum_point_update (gridCells n) (weight n s)
    (weight n (s.improve nb (gc + 1) cur target)) nb ((mem_gridCells n nb).2 hnb_in)
    (fun q hq => by
      unfold weight
      show (match mapSet s.gCost nb (gc + 1) q with
        | none => _
        | some g => g.toNat) = _
      rw [mapSet_other _ _ _ _ hq])
  have hw1 : weight n (s.improve nb (gc + 1) cur target) nb = (gc + 1).toNat := by
    unfold weight
    show (match mapSet s.gCost nb (gc + 1) nb with
      | none => _
      | some g => g.toNat) = _
    rw [mapSet_same]
  have hw : weight n (s.improve nb (gc + 1) cur target) nb < weight n s nb := by
    rw [hw1]
    rcases hnew with h | ⟨g, h, hlt⟩
    · have h1 := (inv.bound cur gc hcur).2
      have h2 := knownCount_le n s
      unfold weight
      rw [h]
      show (gc + 1).toNat < (gridCells n).card + 1
      omega
    · unfold weight
      rw [h]
      show (gc + 1).toNat < g.toNat
      omega
  unfold potential
  omega

theorem frontierInv_improve {grid : BoolGrid} {n : Int} {target : iPoint2D}
    {c : Option iPoint2D} {s : Search} (fr : FrontierInv grid n target c s)
    (nb : iPoint2D) (t : Int) (cur : iPoint2D) :
    FrontierInv grid n target c (s.improve nb t cur target) := by
  constructor
  · intro h
    change (mapSet s.gCost nb t target).isSome = true at h
    show ∃ nd ∈ s.openList ++ [_], nd.point = target
    by_cases ht : target = nb
    · exact ⟨_, List.mem_append_right _ (List.mem_singleton_self _), ht.symm⟩
    · rw [mapSet_other _ _ _ _ ht] at h
      obtain ⟨nd, hnd, hp⟩ := fr.target_open h
      exact ⟨nd, List.mem_append_left _ hnd, hp⟩
  · intro p h
    change (mapSet s.gCost nb t p).isSome = true at h
    by_cases hp : p = nb
    · exact Or.inr (Or.inl ⟨_, List.mem_append_right _ (List.mem_singleton_self _), hp.symm⟩)
    · rw [mapSet_other _ _ _ _ hp] at h
      rcases fr.closed p h with h1 | ⟨nd, hnd, hnp⟩ | h3
      · exact Or.inl h1
      · exact Or.inr (Or.inl ⟨nd, List.mem_append_left _ hnd, hnp⟩)
      · exact Or.inr (Or.inr fun d hd hv => mapSet_isSome _ _ _ _ (h3 d hd hv))

theorem relax_known_mono (grid : BoolGrid) (n : Int) (target cur : iPoint2D) (s : Search)
    (dir p : iPoint2D) (h : (s.gCost p).isSome = true) :
    ((relax grid n n target cur s dir).gCost p).isSome = true := by
  rcases relax_cases grid n target cur s dir with ⟨he, _⟩ | ⟨_, _, he⟩
  · rw [he]; exact h
  · rw [he]; exact mapSet_isSome _ _ _ _ h

theorem relax_known_neighbor (grid : BoolGrid) (n : Int) (target cur : iPoint2D) (s : Search)
    (dir : iPoint2D)
    (hv : isValid (wrapNeighbor n n cur dir).x (wrapNeighbor n n cur dir).y grid = true) :
    ((relax grid n n target cur s dir).gCost (wrapNeighbor n n cur dir)).isSome = true := by
  rcases relax_cases grid n target cur s dir with ⟨he, hk⟩ | ⟨_, _, he⟩
  · rw [he]; exact hk hv
  · rw [he]; simp [Search.improve, mapSet_same]

theorem expandInv_relax {grid : BoolGrid} {n : Int} {start target cur : iPoint2D} {m : Nat}
    {s : Search} (inv : ExpandInv grid n start target cur m s)
    (hr : grid.rows = n.toNat) (hc : grid.cols = n.toNat) (dir : iPoint2D)
    (hdir : dir ∈ directions) :
    ExpandInv grid n start target cur m (relax grid n n target cur s dir) := by
  obtain ⟨gc, hgc⟩ := Option.isSome_iff_exists.1 inv.current_known
  rcases relax_cases grid n target cur s dir with ⟨he, _⟩ | ⟨hv, hnew, he⟩
  · rw [he]; exact inv
  · rw [he]
    have hget : (s.gCost cur).getD 0 = gc := by rw [hgc]; rfl
    rw [hget] at hnew ⊢
    have hedge : edge grid n cur (wrapNeighbor n n cur dir) := ⟨⟨dir, hdir, rfl⟩, hv⟩
    have hpot := potential_improve inv.search hr hc target cur _ gc hgc hedge hnew
    refine ⟨searchInv_improve inv.search hr hc target cur _ gc hgc hedge hnew,
      frontierInv_improve inv.frontier _ _ _, mapSet_isSome _ _ _ _ inv.current_known, ?_⟩
    have := inv.measure_le
    unfold searchMeasure at this ⊢
    simp only [Search.improve, List.length_append, List.length_singleton]
    have hpot2 : potential n (s.improve (wrapNeighbor n n cur dir) (gc + 1) cur target)
        < potential n s := hpot
    unfold Search.improve at hpot2
    omega

/-! ## Toroidal path planner: one iteration of the search loop -/

theorem foldl_relax_inv {grid : BoolGrid} {n : Int} {start target cur : iPoint2D} {m : Nat}
    (hr : grid.rows = n.toNat) (hc : grid.cols = n.toNat) :
    ∀ (l : List iPoint2D), (∀ d ∈ l, d ∈ directions) → ∀ s : Search,
      ExpandInv grid n start target cur m s →
      ExpandInv grid n start target cur m (l.foldl (relax grid n n target cur) s)
  | [], _, _, inv => inv
  | d :: l, hl, _, inv =>
    foldl_relax_inv hr hc l (fun e he => hl e (List.mem_cons_of_mem _ he)) _
      (expandInv_relax inv hr hc d (hl d (List.mem_cons_self _ _)))

theorem foldl_relax_known_mono (grid : BoolGrid) (n : Int) (target cur p : iPoint2D) :
    ∀ (l : List iPoint2D) (s : Search), (s.gCost p).isSome = true →
      ((l.foldl (relax grid n n target cur) s).gCost p).isSome = true
  | [], _, h => h
  | d :: l, s, h =>
    foldl_relax_known_mono grid n target cur p l _ (relax_known_mono grid n target cur s d p h)

theorem foldl_relax_known_neighbor (grid : BoolGrid) (n : Int) (target cur : iPoint2D) :
    ∀ (l : List iPoint2D) (s : Search) (d : iPoint2D), d ∈ l →
      isValid (wrapNeighbor n n cur d).x (wrapNeighbor n n cur d).y grid = true →
      ((l.foldl (relax grid n n target cur) s).gCost (wrapNeighbor n n cur d)).isSome = true
  | [], _, _, hd, _ => by cases hd
  | e :: l, s, d, hd, hv => by
    rcases List.mem_cons.1 hd with rfl | hd
    · exact foldl_relax_known_mono grid n target cur _ l _
        (relax_known_neighbor grid n target cur s d hv)
    · exact foldl_relax_known_neighbor grid n target cur l _ d hd hv

theorem loop_step {grid : BoolGrid} {n : Int} {start target : iPoint2D} {s : Search}
    (hr : grid.rows = n.toNat) (hc : grid.cols = n.toNat)
    (inv : SearchInv grid n start s) (fr : FrontierInv grid n target none s)
    (choice : Nat) (current : Node) (rest : List Node)
    (hpop : popTop choice s.openList = some (current, rest))
    (hnt : current.point ≠ target) :
    SearchInv grid n start (expand grid n n target current.point { s with openList := rest }) ∧
    FrontierInv grid n target none
      (expand grid n n target current.point { s with openList := rest }) ∧
    searchMeasure n (expand grid n n target current.point { s with openList := rest })
      < searchMeasure n s := by
  obtain ⟨hperm, _⟩ := popTop_some choice s.openList current rest hpop
  have hsub : ∀ nd ∈ rest, nd ∈ s.openList := fun nd h =>
    hperm.symm.subset (List.mem_cons_of_mem _ h)
  have hcur_mem : current ∈ s.openList := hperm.symm.subset (List.mem_cons_self _ _)
  have hlen : s.openList.length = rest.length + 1 := by
    rw [hperm.length_eq]; rfl
  have hlenpos : 0 < searchMeasure n s := by unfold searchMeasure; omega
  have inv0 : ExpandInv grid n start target current.point (searchMeasure n s - 1)
      { s with openList := rest } := by
    refine ⟨⟨inv.start_cost, fun nd h => inv.open_known nd (hsub nd h), inv.cost_pos, inv.link,
      inv.reach, inv.bound⟩, ⟨?_, ?_⟩, inv.open_known current hcur_mem, ?_⟩
    · intro h
      obtain ⟨nd, hnd, hp⟩ := fr.target_open h
      rcases List.mem_cons.1 (hperm.subset hnd) with rfl | hnd
      · exact absurd hp hnt
      · exact ⟨nd, hnd, hp⟩
    · intro p h
      rcases fr.closed p h with h1 | ⟨nd, hnd, hnp⟩ | h3
      · cases h1
      · rcases List.mem_cons.1 (hperm.subset hnd) with rfl | hnd
        · exact Or.inl (by rw [hnp])
        · exact Or.inr (Or.inl ⟨nd, hnd, hnp⟩)
      · exact Or.inr (Or.inr h3)
    · unfold searchMeasure
      show 2 * potential n s + rest.length ≤ 2 * potential n s + s.openList.length - 1
      omega
  have inv1 := foldl_relax_inv hr hc directions (fun d hd => hd) _ inv0
  refine ⟨inv1.search, ⟨inv1.frontier.target_open, ?_⟩, ?_⟩
  · intro p h
    rcases inv1.frontier.closed p h with h1 | h2 | h3
    · cases h1
      exact Or.inr (Or.inr fun d hd hv =>
        foldl_relax_known_neighbor grid n target current.point directions _ d hd hv)
    · exact Or.inr (Or.inl h2)
    · exact Or.inr (Or.inr h3)
  · have := inv1.measure_le
    unfold expand
    omega

/-! ## Toroidal path planner: path reconstruction -/

theorem reconstruct_spec {grid : BoolGrid} {n : Int} {start : iPoint2D} {s : Search}
    (inv : SearchInv grid n start s) :
    ∀ (fuel : Nat) (p : iPoint2D) (path result : List iPoint2D),
      (s.gCost p).isSome = true →
      List.Chain (pathLink grid n s) p path.reverse →
      reconstruct s.parent start fuel p path = some result →
      ∃ front, result = start :: front ∧ result.getLast? = (p :: path.reverse).getLast? ∧
        List.Chain (pathLink grid n s) start front
  | 0, _, _, _, _, _, h => by cases h
  | fuel + 1, p, path, result, hk, hchain, h => by
    unfold reconstruct at h
    by_cases hp : p = start
    · subst hp
      simp only [ne_eq, not_true_eq_false, if_false, Option.some.injEq] at h
      subst h
      exact ⟨path.reverse, by simp, by simp, hchain⟩
    · simp only [ne_eq, hp, not_false_eq_true, if_true] at h
      obtain ⟨g, hg⟩ := Option.isSome_iff_exists.1 hk
      obtain ⟨q, gq, hq1, hq2, hq3, hq4⟩ := inv.link p g hg hp
      rw [hq1] at h
      have hlink : pathLink grid n s q p :=
        ⟨hq4, (inv.bound q gq hq2).1, by rw [hq2, hg]; simp only [Option.getD_some]; omega⟩
      obtain ⟨front, h1, h2, h3⟩ := reconstruct_spec inv fuel q (path ++ [p]) result
        (by rw [hq2]; rfl)
        (by rw [List.reverse_append]; exact List.Chain.cons hlink hchain) h
      refine ⟨front, h1, ?_, h3⟩
      rw [h2, List.reverse_append]
      simp [List.getLast?_cons_cons]

theorem reconstruct_defined {grid : BoolGrid} {n : Int} {start : iPoint2D} {s : Search}
    (inv : SearchInv grid n start s) :
    ∀ (fuel : Nat) (p : iPoint2D) (path : List iPoint2D) (g : Int),
      s.gCost p = some g → g.toNat < fuel →
      ∃ result, reconstruct s.parent start fuel p path = some result
  | 0, _, _, _, _, h => by omega
  | fuel + 1, p, path, g, hg, hfuel => by
    unfold reconstruct
    by_cases hp : p = start
    · exact ⟨(path ++ [start]).reverse, by simp [hp]⟩
    · simp only [ne_eq, hp, not_false_eq_true, if_true]
      obtain ⟨q, gq, hq1, hq2, hq3, _⟩ := inv.link p g hg hp
      rw [hq1]
      have := searchInv_cost_nonneg inv q gq hq2
      exact reconstruct_defined inv fuel q (path ++ [p]) gq hq2 (by omega)

/-! ## Toroidal path planner: the search loop -/

theorem known_of_reach {grid : BoolGrid} {n : Int} {start target : iPoint2D} {s : Search}
    (inv : SearchInv grid n start s) (fr : FrontierInv grid n target none s)
    (hempty : s.openList = []) (p : iPoint2D)
    (h : Relation.ReflTransGen (edge grid n) start p) : (s.gCost p).isSome = true := by
  induction h with
  | refl => rw [inv.start_cost]; rfl
  | @tail q p _ hqp ih =>
    rcases fr.closed q ih with h1 | ⟨nd, hnd, _⟩ | h3
    · cases h1
    · rw [hempty] at hnd; cases hnd
    · obtain ⟨⟨d, hd, rfl⟩, hv⟩ := hqp
      exact h3 d hd hv

theorem pathLink_chain_nodup (grid : BoolGrid) (n : Int) (s : Search) (a : iPoint2D)
    (l : List iPoint2D) (h : List.Chain (pathLink grid n s) a l) : (a :: l).Nodup := by
  have h1 : List.Chain (fun q p => (s.gCost q).getD 0 < (s.gCost p).getD 0) a l :=
    h.imp fun _ _ hl => hl.2.2
  haveI : IsTrans iPoint2D (fun q p => (s.gCost q).getD 0 < (s.gCost p).getD 0) :=
    ⟨fun _ _ _ hab hbc => lt_trans hab hbc⟩
  have h2 := h1.pairwise
  exact h2.imp fun hlt heq => by rw [heq] at hlt; exact lt_irrefl _ hlt

theorem aStarLoop_spec {grid : BoolGrid} {n : Int} {start target : iPoint2D}
    (hr : grid.rows = n.toNat) (hc : grid.cols = n.toNat) (tie : Nat → Nat) (pathFuel : Nat) :
    ∀ (fuel k : Nat) (s : Search) (result : List iPoint2D),
      SearchInv grid n start s → FrontierInv grid n target none s →
      aStarLoop tie grid n n start target pathFuel fuel k s = some result →
      (result = [] ∧ ¬ Relation.ReflTransGen (edge grid n) start target) ∨
      (Relation.ReflTransGen (edge grid n) start target ∧
        ∃ front, result = start :: front ∧ result.getLast? = some target ∧
          List.Chain (fun q p => edge grid n q p ∧ inGrid n n q) start front ∧ result.Nodup)
  | 0, _, _, _, _, _, h => by cases h
  | fuel + 1, k, s, result, inv, fr, h => by
    unfold aStarLoop at h
    cases hpop : popTop (tie k) s.openList with
    | none =>
      rw [hpop] at h
      cases h
      refine Or.inl ⟨rfl, fun hreach => ?_⟩
      have hempty := popTop_none _ _ hpop
      obtain ⟨nd, hnd, _⟩ := fr.target_open (known_of_reach inv fr hempty target hreach)
      rw [hempty] at hnd
      cases hnd
    | some pr =>
      obtain ⟨current, rest⟩ := pr
      rw [hpop] at h
      simp only at h
      by_cases ht : current.point = target
      · rw [if_pos ht] at h
        have hmem : current ∈ s.openList :=
          (popTop_some _ _ _ _ hpop).1.symm.subset (List.mem_cons_self _ _)
        have hk : (s.gCost target).isSome = true := ht ▸ inv.open_known current hmem
        obtain ⟨g, hg⟩ := Option.isSome_iff_exists.1 hk
        obtain ⟨front, h1, h2, h3⟩ := reconstruct_spec inv pathFuel target [] result hk
          List.Chain.nil h
        refine Or.inr ⟨inv.reach target g hg, front, h1, by simpa using h2,
          h3.imp fun _ _ hl => ⟨hl.1, hl.2.1⟩, ?_⟩
        rw [h1]
        exact pathLink_chain_nodup grid n s start front h3
      · rw [if_neg ht] at h
        obtain ⟨i1, i2, _⟩ := loop_step hr hc inv fr (tie k) current rest hpop ht
        exact aStarLoop_spec hr hc tie pathFuel fuel (k + 1) _ result i1 i2 h

theorem aStarLoop_defined {grid : BoolGrid} {n : Int} {start target : iPoint2D}
    (hr : grid.rows = n.toNat) (hc : grid.cols = n.toNat) (tie : Nat → Nat) (pathFuel : Nat)
    (hpf : (gridCells n).card < pathFuel) :
    ∀ (fuel k : Nat) (s : Search),
      SearchInv grid n start s → FrontierInv grid n target none s →
      searchMeasure n s < fuel →
      ∃ result, aStarLoop tie grid n n start target pathFuel fuel k s = some result
  | 0, _, _, _, _, h => by omega
  | fuel + 1, k, s, inv, fr, hm => by
    unfold aStarLoop
    cases hpop : popTop (tie k) s.openList with
    | none => exact ⟨[], rfl⟩
    | some pr =>
      obtain ⟨current, rest⟩ := pr
      simp only
      by_cases ht : current.point = target
      · rw [if_pos ht]
        have hmem : current ∈ s.openList :=
          (popTop_some _ _ _ _ hpop).1.symm.subset (List.mem_cons_self _ _)
        have hk : (s.gCost target).isSome = true := ht ▸ inv.open_known current hmem
        obtain ⟨g, hg⟩ := Option.isSome_iff_exists.1 hk
        have h1 := (inv.bound target g hg).2
        have h2 := knownCount_le n s
        exact reconstruct_defined inv pathFuel target [] g hg (by omega)
      · rw [if_neg ht]
        obtain ⟨i1, i2, i3⟩ := loop_step hr hc inv fr (tie k) current rest hpop ht
        exact aStarLoop_defined hr hc tie pathFuel hpf fuel (k + 1) _ i1 i2 (by omega)

/-! ## Toroidal path planner: the initial state and the grid -/

theorem initial_inv (grid : BoolGrid) (n : Int) (start target : iPoint2D)
    (hs : inGrid n n start) :
    SearchInv grid n start (Search.initial start target) ∧
    FrontierInv grid n target none (Search.initial start target) ∧
    searchMeasure n (Search.initial start target) < aStarFuel n := by
  unfold Search.initial
  have honly : ∀ p : iPoint2D, (mapSet (fun _ => (none : Option Int)) start 0 p).isSome = true →
      p = start := by
    intro p h
    by_contra hp
    rw [mapSet_other _ _ _ _ hp] at h
    cases h
  have honly2 : ∀ (p : iPoint2D) (g : Int),
      mapSet (fun _ => (none : Option Int)) start 0 p = some g → p = start :=
    fun p g h => honly p (by rw [h]; rfl)
  refine ⟨⟨?_, ?_, ?_, ?_, ?_, ?_⟩, ⟨?_, ?_⟩, ?_⟩
  · exact mapSet_same (fun _ => (none : Option Int)) start 0
  · intro nd hnd
    rw [List.mem_singleton] at hnd
    subst hnd
    show (mapSet (fun _ => (none : Option Int)) start 0 start).isSome = true
    rw [mapSet_same]; rfl
  · intro p g hp hne
    exact absurd (honly2 p g hp) hne
  · intro p g hp hne
    exact absurd (honly2 p g hp) hne
  · intro p g hp
    rw [honly2 p g hp]
  · intro p g hp
    have hps := honly2 p g hp
    subst hps
    change mapSet (fun _ => (none : Option Int)) p 0 p = some g at hp
    rw [mapSet_same] at hp
    cases hp
    refine ⟨hs, ?_⟩
    show (0 : Int) + 1 ≤ knownCount n (Search.initial p target)
    have : 0 < knownCount n (Search.initial p target) := by
      unfold knownCount Search.initial
      rw [Finset.card_pos]
      exact ⟨p, Finset.mem_filter.2 ⟨(mem_gridCells n p).2 hs, by
        show (mapSet (fun _ => (none : Option Int)) p 0 p).isSome = true
        rw [mapSet_same]; rfl⟩⟩
    omega
  · intro h
    exact ⟨_, List.mem_singleton_self _, (honly target h).symm⟩
  · intro p h
    exact Or.inr (Or.inl ⟨_, List.mem_singleton_self _, (honly p h).symm⟩)
  · show searchMeasure n (Search.initial start target) < aStarFuel n
    have hpot : potential n (Search.initial start target)
        ≤ (gridCells n).card * ((gridCells n).card + 1) := by
      unfold potential
      have := Finset.sum_le_card_nsmul (gridCells n)
        (weight n (Search.initial start target))
        ((gridCells n).card + 1) (fun p _ => by
          unfold weight Search.initial
          show (match mapSet (fun _ => (none : Option Int)) start 0 p with
            | none => (gridCells n).card + 1
            | some g => g.toNat) ≤ _
          by_cases hp : p = start
          · subst hp; rw [mapSet_same]; simp
          · rw [mapSet_other _ _ _ _ hp])
      simpa using this
    have hcard := gridCells_card_le n
    have hmul : (gridCells n).card * ((gridCells n).card + 1)
        ≤ n.toNat * n.toNat * (n.toNat * n.toNat + 1) :=
      Nat.mul_le_mul hcard (by omega)
    unfold searchMeasure aStarFuel
    have hlen : (Search.initial start target).openList.length = 1 := rfl
    rw [hlen, Nat.mul_assoc 2]
    omega

theorem aStarFuel_gt_card (n : Int) : (gridCells n).card < aStarFuel n := by
  have hcard := gridCells_card_le n
  unfold aStarFuel
  have : n.toNat * n.toNat ≤ 2 * (n.toNat * n.toNat) * (n.toNat * n.toNat + 1) := by
    rw [Nat.mul_assoc 2]
    have h1 : n.toNat * n.toNat ≤ n.toNat * n.toNat * (n.toNat * n.toNat + 1) :=
      Nat.le_mul_of_pos_right _ (by omega)
    omega
  omega

theorem wrapCoord_succ (v n : Int) (h0 : 0 ≤ v) (h1 : v < n) :
    wrapCoord (v + 1) n = (v + 1) % n := by
  unfold wrapCoord
  split_ifs with a b
  · omega
  · have : v + 1 = n := by omega
    rw [this, Int.emod_self]
  · rw [Int.emod_eq_of_lt (by omega) (by omega)]

theorem wrapCoord_pred (v n : Int) (h0 : 0 ≤ v) (h1 : v < n) :
    wrapCoord (v + -1) n = (v - 1) % n := by
  unfold wrapCoord
  split_ifs with a b
  · have : v = 0 := by omega
    subst this
    rw [← Int.add_emod_self, Int.emod_eq_of_lt (by omega) (by omega)]
    omega
  · omega
  · rw [show v + -1 = v - 1 by omega, Int.emod_eq_of_lt (by omega) (by omega)]

theorem wrapCoord_same (v n : Int) (h0 : 0 ≤ v) (h1 : v < n) : wrapCoord (v + 0) n = v := by
  unfold wrapCoord
  split_ifs <;> omega

theorem wrapNeighbor_iff_step (n : Int) (q p : iPoint2D) (hq : inGrid n n q) :
    (∃ d ∈ directions, p = wrapNeighbor n n q d) ↔ toroidalStep n q p := by
  obtain ⟨hx0, hx1, hy0, hy1⟩ := hq
  obtain ⟨px, py⟩ := p
  unfold toroidalStep
  simp only [directions, List.mem_cons, List.mem_singleton, List.not_mem_nil, or_false,
    exists_eq_or_imp, exists_eq_left, wrapNeighbor, iPoint2D.mk.injEq,
    wrapCoord_succ _ n hx0 hx1, wrapCoord_pred _ n hx0 hx1, wrapCoord_same _ n hx0 hx1,
    wrapCoord_succ _ n hy0 hy1, wrapCoord_pred _ n hy0 hy1, wrapCoord_same _ n hy0 hy1]
  tauto

theorem getGrid_spec (gameBoard : GameBoard) (n : Int) (hsq : squareBoard gameBoard n) :
    ∃ grid, gameBoard.getGrid = some grid ∧ grid.rows = n.toNat ∧ grid.cols = n.toNat ∧
      ∀ p : iPoint2D, isValid p.x p.y grid = true ↔
        inGrid n n p ∧ p ∉ gameBoard.snake.segments := by
  obtain ⟨g, hg, g1, hg1, hr, hc, hcell⟩ := validPositions_spec gameBoard n hsq false
  have hn : (0 : Int) ≤ n := by have := hsq.1; omega
  refine ⟨g1, ?_, hr, hc, fun p => ?_⟩
  · unfold GameBoard.getGrid
    rw [hg]
    exact hg1
  · constructor
    · intro hv
      have hin := isValid_inGrid g1 n hr hc p hv
      refine ⟨hin, fun hmem => ?_⟩
      unfold isValid at hv
      simp only [Bool.and_eq_true, beq_iff_eq] at hv
      rw [hcell p hin, if_pos hmem] at hv
      simp at hv
    · rintro ⟨hin, hnot⟩
      obtain ⟨h1, h2, h3, h4⟩ := hin
      unfold isValid
      simp only [Bool.and_eq_true, beq_iff_eq, decide_eq_true_eq, hr, hc]
      refine ⟨⟨⟨⟨h1, ?_⟩, h3⟩, ?_⟩, ?_⟩
      · rw [Int.toNat_of_nonneg hn]; exact h2
      · rw [Int.toNat_of_nonneg hn]; exact h4
      · rw [hcell p ⟨h1, h2, h3, h4⟩, if_neg hnot]

theorem wrapCoord_range (v n : Int) (hn : 1 ≤ n) : 0 ≤ wrapCoord v n ∧ wrapCoord v n < n := by
  unfold wrapCoord
  split_ifs <;> omega

theorem edge_iff_freeStep (grid : BoolGrid) (n : Int) (body : List iPoint2D) (hn : 1 ≤ n)
    (hvalid : ∀ p : iPoint2D, isValid p.x p.y grid = true ↔ inGrid n n p ∧ p ∉ body)
    (q p : iPoint2D) (hq : inGrid n n q) : edge grid n q p ↔ freeStep n body q p := by
  unfold edge freeStep
  rw [wrapNeighbor_iff_step n q p hq, hvalid]
  constructor
  · rintro ⟨h1, _, h3⟩; exact ⟨h1, h3⟩
  · rintro ⟨h1, h3⟩
    refine ⟨h1, ?_, h3⟩
    obtain ⟨d, _, rfl⟩ := (wrapNeighbor_iff_step n q p hq).2 h1
    have hx := wrapCoord_range (q.x + d.x) n hn
    have hy := wrapCoord_range (q.y + d.y) n hn
    exact ⟨hx.1, hx.2, hy.1, hy.2⟩

theorem chain_edge_iff_free (grid : BoolGrid) (n : Int) (body : List iPoint2D) (hn : 1 ≤ n)
    (hvalid : ∀ p : iPoint2D, isValid p.x p.y grid = true ↔ inGrid n n p ∧ p ∉ body) :
    ∀ (l : List iPoint2D) (a : iPoint2D), inGrid n n a →
      (List.Chain (edge grid n) a l ↔ List.Chain (freeStep n body) a l)
  | [], _, _ => by simp
  | b :: l, a, ha => by
    rw [List.chain_cons, List.chain_cons, edge_iff_freeStep grid n body hn hvalid a b ha]
    constructor
    · rintro ⟨h1, h2⟩
      have hb : inGrid n n b := ((hvalid b).1 (((edge_iff_freeStep grid n body hn hvalid a b ha).2 h1).2)).1
      exact ⟨h1, (chain_edge_iff_free grid n body hn hvalid l b hb).1 h2⟩
    · rintro ⟨h1, h2⟩
      have hb : inGrid n n b := ((hvalid b).1 (((edge_iff_freeStep grid n body hn hvalid a b ha).2 h1).2)).1
      exact ⟨h1, (chain_edge_iff_free grid n body hn hvalid l b hb).2 h2⟩

theorem reachable_iff (grid : BoolGrid) (n : Int) (body : List iPoint2D) (hn : 1 ≤ n)
    (hvalid : ∀ p : iPoint2D, isValid p.x p.y grid = true ↔ inGrid n n p ∧ p ∉ body)
    (start target : iPoint2D) (hs : inGrid n n start) :
    reachable n body start target ↔ Relation.ReflTransGen (edge grid n) start target := by
  constructor
  · rintro ⟨route, hchain, hlast⟩
    refine List.relationReflTransGen_of_exists_chain route
      ((chain_edge_iff_free grid n body hn hvalid route start hs).2 hchain) ?_
    rw [List.getLast?_eq_getLast _ (List.cons_ne_nil _ _)] at hlast
    exact Option.some.inj hlast
  · intro h
    obtain ⟨route, hchain, hlast⟩ := List.exists_chain_of_relationReflTransGen h
    refine ⟨route, (chain_edge_iff_free grid n body hn hvalid route start hs).1 hchain, ?_⟩
    rw [List.getLast?_eq_getLast _ (List.cons_ne_nil _ _), hlast]

theorem aStar_outcome (gameBoard : GameBoard) (n : Int) (tie : Nat → Nat) (fuel : Nat)
    (start target : iPoint2D) (hsq : squareBoard gameBoard n) (hs : inGrid n n start) :
    (∀ path, gameBoard.aStar tie fuel start target = some path →
      (path = [] ∧ ¬ reachable n gameBoard.snake.segments start target) ∨
      (path ≠ [] ∧ reachable n gameBoard.snake.segments start target ∧
        validPath n start target path)) ∧
    (aStarFuel n ≤ fuel → ∃ path, gameBoard.aStar tie fuel start target = some path) := by
  obtain ⟨grid, hgrid, hr, hc, hvalid⟩ := getGrid_spec gameBoard n hsq
  have hn := hsq.1
  have hw : gameBoard.width.tdiv gameBoard.cellSize = n := hsq.2.1
  have hh : gameBoard.height.tdiv gameBoard.cellSize = n := hsq.2.2.1
  obtain ⟨i1, i2, i3⟩ := initial_inv grid n start target hs
  have hreach := reachable_iff grid n gameBoard.snake.segments hn hvalid start target hs
  unfold GameBoard.aStar
  rw [hgrid, hw, hh]
  simp only
  constructor
  · intro path hpath
    rcases aStarLoop_spec hr hc tie fuel fuel 0 _ path i1 i2 hpath with
      ⟨h1, h2⟩ | ⟨h1, front, h2, h3, h4, h5⟩
    · exact Or.inl ⟨h1, fun h => h2 (hreach.1 h)⟩
    · refine Or.inr ⟨by rw [h2]; simp, hreach.2 h1, by rw [h2]; rfl, h3, ?_, h5⟩
      rw [h2]
      exact h4.imp fun q p hqp => ((wrapNeighbor_iff_step n q p hqp.2).1 hqp.1.1)
  · intro hfuel
    exact aStarLoop_defined hr hc tie fuel (lt_of_lt_of_le (aStarFuel_gt_card n) hfuel)
      fuel 0 _ i1 i2 (lt_of_lt_of_le i3 hfuel)

/-! ## Toroidal path planner: the contract of `GameBoard::aStar` -/

theorem chain_freeStep_not_mem (n : Int) (body : List iPoint2D) :
    ∀ (route : List iPoint2D) (a : iPoint2D), List.Chain (freeStep n body) a route →
      ∀ c ∈ route, c ∉ body
  | [], _, _, c, hc => by cases hc
  | b :: l, a, h, c, hc => by
    rw [List.chain_cons] at h
    rcases List.mem_cons.1 hc with rfl | hc
    · exact h.1.2
    · exact chain_freeStep_not_mem n body l b h.2 c hc

theorem not_reachable_of_mem_body (n : Int) (body : List iPoint2D) (start target : iPoint2D)
    (hne : target ≠ start) (hmem : target ∈ body) : ¬ reachable n body start target := by
  rintro ⟨route, hchain, hlast⟩
  cases route with
  | nil =>
    simp only [List.getLast?_singleton, Option.some.injEq] at hlast
    exact hne hlast.symm
  | cons b l =>
    rw [List.getLast?_cons_cons] at hlast
    exact chain_freeStep_not_mem n body (b :: l) start hchain target
      (List.mem_of_getLast?_eq_some hlast) hmem

/-- C1. On a square board of `n` by `n` cells (`n ≥ 1`) whose Body lies in the grid, for
an in-grid `start`, any `target`, any order among open-list entries of equal `fCost` and
any fuel: when `GameBoard::aStar` returns a non-empty sequence, its first cell is `start`,
its last cell is `target`, every consecutive pair of cells is one toroidal step apart and
no cell occurs twice. -/
theorem aStar_path_valid (gameBoard : GameBoard) (n : Int) (tie : Nat → Nat) (fuel : Nat)
    (start target : iPoint2D) (path : List iPoint2D)
    (hsq : squareBoard gameBoard n) (hs : inGrid n n start)
    (hpath : gameBoard.aStar tie fuel start target = some path) (hne : path ≠ []) :
    path.head? = some start ∧ path.getLast? = some target ∧
      List.Chain' (toroidalStep n) path ∧ path.Nodup := by
  rcases (aStar_outcome gameBoard n tie fuel start target hsq hs).1 path hpath with
    ⟨h, _⟩ | ⟨_, _, h⟩
  · exact absurd h hne
  · exact h

/-- C2. On a square board whose Body lies in the grid, for an in-grid `start`: when
`target` is reachable from `start`, `GameBoard::aStar` returns a non-empty sequence,
whatever the order among open-list entries of equal `fCost`, as soon as the fuel allows
`aStarFuel n` loop iterations. -/
theorem aStar_finds_reachable (gameBoard : GameBoard) (n : Int) (tie : Nat → Nat) (fuel : Nat)
    (start target : iPoint2D)
    (hsq : squareBoard gameBoard n) (hs : inGrid n n start)
    (hreach : reachable n gameBoard.snake.segments start target)
    (hfuel : aStarFuel n ≤ fuel) :
    ∃ path, gameBoard.aStar tie fuel start target = some path ∧ path ≠ [] := by
  obtain ⟨hspec, hdef⟩ := aStar_outcome gameBoard n tie fuel start target hsq hs
  obtain ⟨path, hpath⟩ := hdef hfuel
  rcases hspec path hpath with ⟨_, h⟩ | ⟨h, _⟩
  · exact absurd hreach h
  · exact ⟨path, hpath, h⟩

/-- C3. On a square board whose Body lies in the grid, for an in-grid `start`: when
`target` is not reachable from `start` (so `target ≠ start`), `GameBoard::aStar` returns
the empty sequence, whatever the order among open-list entries of equal `fCost`, as soon
as the fuel allows `aStarFuel n` loop iterations. -/
theorem aStar_unreachable_empty (gameBoard : GameBoard) (n : Int) (tie : Nat → Nat)
    (fuel : Nat) (start target : iPoint2D)
    (hsq : squareBoard gameBoard n) (hs : inGrid n n start)
    (hun : ¬ reachable n gameBoard.snake.segments start target)
    (hfuel : aStarFuel n ≤ fuel) :
    gameBoard.aStar tie fuel start target = some [] := by
  obtain ⟨hspec, hdef⟩ := aStar_outcome gameBoard n tie fuel start target hsq hs
  obtain ⟨path, hpath⟩ := hdef hfuel
  rcases hspec path hpath with ⟨h, _⟩ | ⟨_, h, _⟩
  · rw [hpath, h]
  · exact absurd h hun

/-- Witness of C1 on `smallBoard`: the path planned from the head `(0, 1)` to `(2, 2)`
crosses the left edge. -/
theorem aStar_path_valid_witness :
    squareBoard smallBoard 3 ∧
    smallBoard.aStar (fun k => k) 50 ⟨0, 1⟩ ⟨2, 2⟩ = some [⟨0, 1⟩, ⟨2, 1⟩, ⟨2, 2⟩] ∧
    List.Chain' (toroidalStep 3) [(⟨0, 1⟩ : iPoint2D), ⟨2, 1⟩, ⟨2, 2⟩] ∧
    [(⟨0, 1⟩ : iPoint2D), ⟨2, 1⟩, ⟨2, 2⟩].Nodup := by
  have hrun : smallBoard.aStar (fun k => k) 50 ⟨0, 1⟩ ⟨2, 2⟩ = some [⟨0, 1⟩, ⟨2, 1⟩, ⟨2, 2⟩] := by
    decide
  have h := aStar_path_valid smallBoard 3 (fun k => k) 50 ⟨0, 1⟩ ⟨2, 2⟩ _ (by decide)
    (by decide) hrun (by simp)
  exact ⟨by decide, hrun, h.2.2.1, h.2.2.2⟩

/-- Witness of C2 on `smallBoard`: `(2, 2)` is reachable from the head by the route
`(2, 1)`, `(2, 2)`. -/
theorem aStar_finds_reachable_witness :
    reachable 3 smallBoard.snake.segments ⟨0, 1⟩ ⟨2, 2⟩ ∧
    ∃ path, smallBoard.aStar (fun _ => 0) 200 ⟨0, 1⟩ ⟨2, 2⟩ = some path ∧ path ≠ [] := by
  have hreach : reachable 3 smallBoard.snake.segments ⟨0, 1⟩ ⟨2, 2⟩ :=
    ⟨[⟨2, 1⟩, ⟨2, 2⟩],
      List.Chain.cons (by decide) (List.Chain.cons (by decide) List.Chain.nil), by decide⟩
  exact ⟨hreach, aStar_finds_reachable smallBoard 3 (fun _ => 0) 200 ⟨0, 1⟩ ⟨2, 2⟩
    (by decide) (by decide) hreach (by decide)⟩

/-- Witness of C3 on `smallBoard`: the target `(1, 1)` is a Body cell. -/
theorem aStar_unreachable_empty_witness :
    ¬ reachable 3 smallBoard.snake.segments ⟨0, 1⟩ ⟨1, 1⟩ ∧
    smallBoard.aStar (fun k => 2 * k) 200 ⟨0, 1⟩ ⟨1, 1⟩ = some [] := by
  have hun : ¬ reachable 3 smallBoard.snake.segments ⟨0, 1⟩ ⟨1, 1⟩ :=
    not_reachable_of_mem_body 3 _ _ _ (by decide) (by decide)
  exact ⟨hun, aStar_unreachable_empty smallBoard 3 (fun k => 2 * k) 200 ⟨0, 1⟩ ⟨1, 1⟩
    (by decide) (by decide) hun (by decide)⟩

/-! ## Toroidal path planner: fuel and forced runs -/

theorem reconstruct_mono (parent : iPoint2D → Option iPoint2D) (start : iPoint2D) :
    ∀ (fuel extra : Nat) (p : iPoint2D) (path result : List iPoint2D),
      reconstruct parent start fuel p path = some result →
      reconstruct parent start (fuel + extra) p path = some result
  | 0, _, _, _, _, h => by cases h
  | fuel + 1, extra, p, path, result, h => by
    rw [Nat.add_right_comm]
    unfold reconstruct at h ⊢
    by_cases hp : p = start
    · simpa [hp] using h
    · simp only [ne_eq, hp, not_false_eq_true, if_true] at h ⊢
      exact reconstruct_mono parent start fuel extra _ _ result h

theorem aStarLoop_mono (tie : Nat → Nat) (grid : BoolGrid) (gridWidth gridHeight : Int)
    (start target : iPoint2D) (pathFuel extraPath : Nat) :
    ∀ (fuel extra k : Nat) (s : Search) (result : List iPoint2D),
      aStarLoop tie grid gridWidth gridHeight start target pathFuel fuel k s = some result →
      aStarLoop tie grid gridWidth gridHeight start target (pathFuel + extraPath)
        (fuel + extra) k s = some result
  | 0, _, _, _, _, h => by cases h
  | fuel + 1, extra, k, s, result, h => by
    rw [Nat.add_right_comm]
    unfold aStarLoop at h ⊢
    cases hpop : popTop (tie k) s.openList with
    | none => rw [hpop] at h; exact h
    | some pr =>
      obtain ⟨current, rest⟩ := pr
      rw [hpop] at h
      simp only at h ⊢
      by_cases ht : current.point = target
      · rw [if_pos ht] at h ⊢
        exact reconstruct_mono s.parent start pathFuel extraPath target [] result h
      · rw [if_neg ht] at h ⊢
        exact aStarLoop_mono tie grid gridWidth gridHeight start target pathFuel extraPath
          fuel extra (k + 1) _ result h

theorem aStar_mono (gameBoard : GameBoard) (tie : Nat → Nat) (fuel extra : Nat)
    (start target : iPoint2D) (result : List iPoint2D)
    (h : gameBoard.aStar tie fuel start target = some result) :
    gameBoard.aStar tie (fuel + extra) start target = some result := by
  unfold GameBoard.aStar at h ⊢
  cases hg : gameBoard.getGrid with
  | none => rw [hg] at h; cases h
  | some grid =>
    rw [hg] at h
    exact aStarLoop_mono tie grid _ _ start target fuel extra fuel extra 0 _ result h

theorem popTop_forced (choice : Nat) (l : List Node) (h : topCount l ≤ 1) :
    popTop choice l = popTop 0 l := by
  unfold topCount at h
  unfold popTop
  simp only
  generalize (splits l).filter (fun s => isTop l s.1) = candidates at h
  match candidates, h with
  | [], _ => simp
  | [a], _ => simp [Nat.mod_one]
  | _ :: _ :: _, h => simp at h

theorem forcedRun_spec (grid : BoolGrid) (gridWidth gridHeight : Int)
    (start target : iPoint2D) (tie : Nat → Nat) (pathFuel : Nat) :
    ∀ (fuel k : Nat) (s : Search),
      forcedRun grid gridWidth gridHeight target fuel s = true →
      aStarLoop tie grid gridWidth gridHeight start target pathFuel fuel k s =
        aStarLoop (fun _ => 0) grid gridWidth gridHeight start target pathFuel fuel k s
  | 0, _, _, _ => rfl
  | fuel + 1, k, s, h => by
    unfold forcedRun at h
    unfold aStarLoop
    cases hpop : popTop 0 s.openList with
    | none =>
      rw [hpop] at h
      have hc : topCount s.openList ≤ 1 := by
        have := popTop_none 0 _ hpop
        rw [this]; decide
      rw [popTop_forced (tie k) _ hc, hpop]
    | some pr =>
      obtain ⟨current, rest⟩ := pr
      rw [hpop] at h
      simp only [Bool.and_eq_true, Bool.or_eq_true, decide_eq_true_eq] at h
      rw [popTop_forced (tie k) _ h.1, hpop]
      simp only
      by_cases ht : current.point = target
      · rw [if_pos ht, if_pos ht]
      · rw [if_neg ht, if_neg ht]
        rcases h.2 with h2 | h2
        · exact absurd h2 ht
        · exact forcedRun_spec grid gridWidth gridHeight start target tie pathFuel fuel (k + 1)
            _ h2

/-! ## Training signal synthesizer -/

theorem aStar_forced (gameBoard : GameBoard) (fuel : Nat) (start target : iPoint2D)
    (h : forcedAStar gameBoard fuel start target = true) (tie : Nat → Nat) :
    gameBoard.aStar tie fuel start target = gameBoard.aStar (fun _ => 0) fuel start target := by
  unfold forcedAStar at h
  unfold GameBoard.aStar
  cases hg : gameBoard.getGrid with
  | none => rfl
  | some grid =>
    rw [hg] at h
    exact forcedRun_spec grid _ _ start target tie fuel fuel 0 _ h

theorem synthBoard_path (tie : Nat → Nat) (fuel : Nat) :
    synthBoard.aStar tie (fuel + 6) ⟨10, 10⟩ ⟨15, 10⟩ = some synthRow := by
  rw [Nat.add_comm]
  apply aStar_mono
  rw [aStar_forced synthBoard 6 ⟨10, 10⟩ ⟨15, 10⟩ (by decide) tie]
  decide

theorem edgeBoard_path (tie : Nat → Nat) (fuel : Nat) :
    edgeBoard.aStar tie (fuel + 2) ⟨0, 5⟩ ⟨19, 5⟩ = some [⟨0, 5⟩, ⟨19, 5⟩] := by
  rw [Nat.add_comm]
  apply aStar_mono
  rw [aStar_forced edgeBoard 2 ⟨0, 5⟩ ⟨19, 5⟩ (by decide) tie]
  decide

theorem examine_synth_first :
    AISnake.examine 20 20 ⟨10, 10⟩ ⟨15, 10⟩ { bestDirection := -1, bestScore := none } ⟨11, 10⟩ =
      { bestDirection := 3, bestScore := some 39 } := by
  simp [AISnake.examine, AISnake.stepScore, AISnake.stepDirection]

theorem examine_synth_later (step : iPoint2D)
    (h : step ∈ [(⟨12, 10⟩ : iPoint2D), ⟨13, 10⟩, ⟨14, 10⟩, ⟨15, 10⟩]) :
    AISnake.examine 20 20 ⟨10, 10⟩ ⟨15, 10⟩ { bestDirection := 3, bestScore := some 39 } step =
      { bestDirection := 3, bestScore := some 39 } := by
  simp only [List.mem_cons, List.mem_singleton, List.not_mem_nil, or_false] at h
  rcases h with rfl | rfl | rfl | rfl <;>
    simp [AISnake.examine, AISnake.stepScore, AISnake.stepDirection] <;> norm_num

theorem bestOf_synthRow :
    AISnake.bestOf 20 20 ⟨10, 10⟩ ⟨15, 10⟩ synthRow =
      { bestDirection := 3, bestScore := some 39 } := by
  have hsteps : AISnake.examinedSteps synthRow =
      [⟨11, 10⟩, ⟨12, 10⟩, ⟨13, 10⟩, ⟨14, 10⟩, ⟨15, 10⟩] := by decide
  unfold AISnake.bestOf
  rw [hsteps]
  simp only [List.foldl]
  rw [examine_synth_first, examine_synth_later _ (by simp), examine_synth_later _ (by simp),
    examine_synth_later _ (by simp), examine_synth_later _ (by simp)]

theorem expectedOutputs_synthRow :
    AISnake.expectedOutputs (synthBoard.width.tdiv cellSize) (synthBoard.height.tdiv cellSize)
      ⟨10, 10⟩ ⟨15, 10⟩ synthRow = [0, 0, 0, 1] := by
  have hw : synthBoard.width.tdiv cellSize = 20 := by decide
  have hh : synthBoard.height.tdiv cellSize = 20 := by decide
  rw [hw, hh]
  unfold AISnake.expectedOutputs
  rw [bestOf_synthRow]
  simp [synthRow]

/-- C11 (amended). On the 20 x 20 board with Body `[(10,10), (9,10)]`, heading Right and
Fruit `(15,10)`, for every order among open-list entries of equal `fCost` and every fuel
of at least 6 iterations: the planner path is the straight row `(10,10), ..., (15,10)`;
the examined steps are its cells 1 to 5; the first of them, `(11,10)`, sets the best score
to 39 and the best direction to 3 (Right); none of the steps 2 to 5 changes that; the
step equal to the Fruit scores 10; so after the loop the best score is 39 and the best
direction is 3. -/
theorem synth_example_best (tie : Nat → Nat) (fuel : Nat) :
    synthBoard.aStar tie (fuel + 6) ⟨10, 10⟩ ⟨15, 10⟩ = some synthRow ∧
    synthBoard.width.tdiv cellSize = 20 ∧ synthBoard.height.tdiv cellSize = 20 ∧
    AISnake.examinedSteps synthRow = [⟨11, 10⟩, ⟨12, 10⟩, ⟨13, 10⟩, ⟨14, 10⟩, ⟨15, 10⟩] ∧
    AISnake.examine 20 20 ⟨10, 10⟩ ⟨15, 10⟩ { bestDirection := -1, bestScore := none }
      ⟨11, 10⟩ = { bestDirection := 3, bestScore := some 39 } ∧
    (∀ step ∈ [(⟨12, 10⟩ : iPoint2D), ⟨13, 10⟩, ⟨14, 10⟩, ⟨15, 10⟩],
      AISnake.examine 20 20 ⟨10, 10⟩ ⟨15, 10⟩ { bestDirection := 3, bestScore := some 39 }
        step = { bestDirection := 3, bestScore := some 39 }) ∧
    AISnake.stepScore 20 20 ⟨10, 10⟩ ⟨15, 10⟩ ⟨15, 10⟩ = 10 ∧
    AISnake.bestOf 20 20 ⟨10, 10⟩ ⟨15, 10⟩ synthRow =
      { bestDirection := 3, bestScore := some 39 } := by
  refine ⟨synthBoard_path tie fuel, by decide, by decide, by decide, examine_synth_first,
    examine_synth_later, ?_, bestOf_synthRow⟩
  simp [AISnake.stepScore]

/-- Counterexample to C11 as stated: on the board of the example the planner path is the
straight row, and the best score after the loop over its steps is 39, the score of the
step `(11,10)`, not the score 10 of the step that equals the Fruit. -/
theorem synth_example_fruit_not_best :
    synthBoard.aStar (fun _ => 0) 6 ⟨10, 10⟩ ⟨15, 10⟩ = some synthRow ∧
    (AISnake.bestOf 20 20 ⟨10, 10⟩ ⟨15, 10⟩ synthRow).bestScore = some 39 ∧
    (AISnake.bestOf 20 20 ⟨10, 10⟩ ⟨15, 10⟩ synthRow).bestScore ≠ some 10 ∧
    AISnake.stepScore 20 20 ⟨10, 10⟩ ⟨15, 10⟩ ⟨11, 10⟩ = 39 ∧
    AISnake.stepScore 20 20 ⟨10, 10⟩ ⟨15, 10⟩ ⟨15, 10⟩ = 10 := by
  refine ⟨by decide, ?_, ?_, ?_, ?_⟩
  · rw [bestOf_synthRow]
  · rw [bestOf_synthRow]
    simp only [ne_eq, Option.some.injEq]
    norm_num
  · simp [AISnake.stepScore]
  · simp [AISnake.stepScore]

/-- C12. On the 20 x 20 board with Body `[(10,10), (9,10)]`, heading Right and Fruit
`(15,10)`, whatever the policy outputs, the order among open-list entries of equal `fCost`
and the fuel (at least 6 iterations): the vector that `AISnake::activation` passes to
`backpropagate` is `[0, 0, 0, 1]`. -/
theorem activation_synth_target (policy : List ℚ → Fin 4 → ℚ) (tie : Nat → Nat) (fuel : Nat) :
    (AISnake.activation policy tie (fuel + 6) synthBoard).map Prod.snd = some [0, 0, 0, 1] := by
  unfold AISnake.activation
  have hsegs : synthBoard.snake.segments = [⟨10, 10⟩, ⟨9, 10⟩] := rfl
  have hfruit : synthBoard.fruit = ⟨15, 10⟩ := rfl
  simp only [hsegs, hfruit, synthBoard_path tie fuel, Option.map_some', expectedOutputs_synthRow]

/-- On `edgeBoard`, a 20 x 20 board with Body `[(0,5), (1,5)]` in the grid and Fruit
`(19,5)`, for every policy, tie order and fuel of at least 2: the planner path is
`[(0,5), (19,5)]`, whose first step crosses the left edge;
the heading that moves the head onto `(19,5)` is Left, index 2; the vector passed to
`backpropagate` is `[0, 0, 0, 1]`, with the 1 at index 3, Right, the heading that moves the
head onto the Body cell `(1,5)`. -/
theorem activation_edge_target (policy : List ℚ → Fin 4 → ℚ) (tie : Nat → Nat) (fuel : Nat) :
    squareBoard edgeBoard 20 ∧
    edgeBoard.aStar tie (fuel + 2) ⟨0, 5⟩ ⟨19, 5⟩ = some [⟨0, 5⟩, ⟨19, 5⟩] ∧
    headingOfIndex 2 = Direction.Left ∧
    Snake.movedHead { edgeBoard with snake := { edgeBoard.snake with direction := Direction.Left } }
      ⟨0, 5⟩ = ⟨19, 5⟩ ∧
    (AISnake.activation policy tie (fuel + 2) edgeBoard).map Prod.snd = some [0, 0, 0, 1] ∧
    headingOfIndex 3 = Direction.Right ∧
    Snake.movedHead { edgeBoard with snake := { edgeBoard.snake with direction := Direction.Right } }
      ⟨0, 5⟩ = ⟨1, 5⟩ ∧
    (⟨1, 5⟩ : iPoint2D) ∈ edgeBoard.snake.segments := by
  refine ⟨by decide, edgeBoard_path tie fuel, rfl, by decide, ?_, rfl, by decide, by decide⟩
  unfold AISnake.activation
  have hsegs : edgeBoard.snake.segments = [⟨0, 5⟩, ⟨1, 5⟩] := rfl
  have hfruit : edgeBoard.fruit = ⟨19, 5⟩ := rfl
  have hw : edgeBoard.width.tdiv cellSize = 20 := by decide
  have hh : edgeBoard.height.tdiv cellSize = 20 := by decide
  simp only [hsegs, hfruit, edgeBoard_path tie fuel, Option.map_some', hw, hh]
  simp [AISnake.expectedOutputs, AISnake.bestOf, AISnake.examinedSteps, AISnake.examine,
    AISnake.stepScore, AISnake.stepDirection]

/-! ## Training signal synthesizer: the direction of the winning step -/

theorem stepDirection_range (head q : iPoint2D) (h : q ≠ head) :
    0 ≤ AISnake.stepDirection head q ∧ AISnake.stepDirection head q ≤ 3 := by
  unfold AISnake.stepDirection
  simp only []
  split_ifs with h1 h2 h3 h4
  · omega
  · omega
  · omega
  · omega
  · exfalso
    apply h
    obtain ⟨qx, qy⟩ := q
    obtain ⟨hx, hy⟩ := head
    simp only [iPoint2D.mk.injEq] at *
    constructor <;> omega

theorem examine_first (gridWidth gridHeight : Int) (head fruit q : iPoint2D) (d : Int) :
    AISnake.examine gridWidth gridHeight head fruit { bestDirection := d, bestScore := none } q =
      { bestDirection := AISnake.stepDirection head q,
        bestScore := some (AISnake.stepScore gridWidth gridHeight head fruit q) } := by
  simp [AISnake.examine]

theorem examine_cases (gridWidth gridHeight : Int) (head fruit q : iPoint2D) (b : Best) :
    AISnake.examine gridWidth gridHeight head fruit b q = b ∨
    AISnake.examine gridWidth gridHeight head fruit b q =
      { bestDirection := AISnake.stepDirection head q,
        bestScore := some (AISnake.stepScore gridWidth gridHeight head fruit q) } := by
  unfold AISnake.examine
  simp only []
  split_ifs
  · exact Or.inr rfl
  · exact Or.inl rfl

theorem fold_winner (gridWidth gridHeight : Int) (head fruit : iPoint2D) :
    ∀ (steps : List iPoint2D) (b : Best),
      steps.foldl (AISnake.examine gridWidth gridHeight head fruit) b = b ∨
      ∃ q ∈ steps, steps.foldl (AISnake.examine gridWidth gridHeight head fruit) b =
        { bestDirection := AISnake.stepDirection head q,
          bestScore := some (AISnake.stepScore gridWidth gridHeight head fruit q) }
  | [], _ => Or.inl rfl
  | q :: l, b => by
    rw [List.foldl_cons]
    rcases fold_winner gridWidth gridHeight head fruit l
      (AISnake.examine gridWidth gridHeight head fruit b q) with h | ⟨q1, hq1, h⟩
    · rcases examine_cases gridWidth gridHeight head fruit q b with h1 | h1
      · exact Or.inl (by rw [h, h1])
      · exact Or.inr ⟨q, List.mem_cons_self _ _, by rw [h, h1]⟩
    · exact Or.inr ⟨q1, List.mem_cons_of_mem _ hq1, h⟩

theorem stepScore_le (head fruit q : iPoint2D) (h : q ≠ head) :
    AISnake.stepScore 20 20 head fruit q ≤ 39 := by
  unfold AISnake.stepScore
  simp only []
  split_ifs
  · norm_num
  · have hpos : 1 ≤ ((q.x - head.x).natAbs : Int) + ((q.y - head.y).natAbs : Int) := by
      by_contra hc
      apply h
      obtain ⟨qx, qy⟩ := q
      obtain ⟨hx, hy⟩ := head
      simp only [iPoint2D.mk.injEq] at *
      constructor <;> omega
    have : ((20 - ((q.x - head.x).natAbs : Int)) + (20 - ((q.y - head.y).natAbs : Int)) : Int)
        ≤ 39 := by omega
    have h2 : (((20 - ((q.x - head.x).natAbs : Int)) +
        (20 - ((q.y - head.y).natAbs : Int)) : Int) : ℚ) ≤ ((39 : Int) : ℚ) :=
      Int.cast_le.2 this
    rw [zero_add]
    exact le_trans h2 (by norm_num)

theorem foldl_keep (head fruit : iPoint2D) (d : Int) :
    ∀ (l : List iPoint2D), (∀ q ∈ l, q ≠ head) →
      l.foldl (AISnake.examine 20 20 head fruit) { bestDirection := d, bestScore := some 39 } =
        { bestDirection := d, bestScore := some 39 }
  | [], _ => rfl
  | q :: l, h => by
    rw [List.foldl_cons]
    have hq : AISnake.examine 20 20 head fruit { bestDirection := d, bestScore := some 39 } q =
        { bestDirection := d, bestScore := some 39 } := by
      have hle := stepScore_le head fruit q (h q (List.mem_cons_self _ _))
      unfold AISnake.examine
      simp only []
      rw [if_neg]
      simp only [gt_iff_lt, decide_eq_true_eq, not_lt]
      exact hle
    rw [hq]
    exact foldl_keep head fruit d l (fun q1 h1 => h q1 (List.mem_cons_of_mem _ h1))

theorem stepDirection_adjacent (head : iPoint2D) (d : Fin 4) :
    AISnake.stepDirection head (Snake.stepHead (headingOfIndex d) head) = (d.val : Int) := by
  fin_cases d <;>
    simp [AISnake.stepDirection, Snake.stepHead, headingOfIndex]

theorem stepScore_adjacent (head fruit : iPoint2D) (d : Fin 4)
    (h : Snake.stepHead (headingOfIndex d) head ≠ fruit) :
    AISnake.stepScore 20 20 head fruit (Snake.stepHead (headingOfIndex d) head) = 39 := by
  unfold AISnake.stepScore
  simp only []
  rw [if_neg h]
  fin_cases d <;>
    simp [Snake.stepHead, headingOfIndex]

theorem examinedSteps_cons (a p1 : iPoint2D) (rest : List iPoint2D) :
    AISnake.examinedSteps (a :: p1 :: rest) = p1 :: rest.take (min 4 rest.length) := by
  unfold AISnake.examinedSteps
  simp only [List.drop_succ_cons, List.drop_zero, List.length_cons, Nat.add_sub_cancel]
  rw [show min 5 (rest.length + 1) = min 4 rest.length + 1 by omega, List.take_succ_cons]

theorem expectedOutputs_of_best (gridWidth gridHeight : Int) (head fruit : iPoint2D)
    (path : List iPoint2D) (hne : path ≠ []) (dir : Int) (score : Option ℚ)
    (hbest : AISnake.bestOf gridWidth gridHeight head fruit path =
      { bestDirection := dir, bestScore := score })
    (h0 : 0 ≤ dir) (h3 : dir ≤ 3) :
    ∃ i : Fin 4, (i.val : Int) = dir ∧
      AISnake.expectedOutputs gridWidth gridHeight head fruit path = oneHot i := by
  refine ⟨⟨dir.toNat, by omega⟩, by simp only []; omega, ?_⟩
  unfold AISnake.expectedOutputs oneHot
  have hemp : path.isEmpty = false := by
    cases path with
    | nil => exact absurd rfl hne
    | cons _ _ => rfl
  rw [hemp, hbest]
  simp only [Bool.false_eq_true, if_false]
  rw [if_pos (by omega)]

theorem path_shape (gameBoard : GameBoard) (tie : Nat → Nat) (fuel : Nat)
    (head : iPoint2D) (rest path : List iPoint2D)
    (hsq : squareBoard gameBoard 20) (hsegs : gameBoard.snake.segments = head :: rest)
    (hpath : gameBoard.aStar tie fuel head gameBoard.fruit = some path)
    (hlen : 2 ≤ path.length) :
    ∃ p1 more, path = head :: p1 :: more ∧ (head :: p1 :: more).Nodup ∧
      toroidalStep 20 head p1 ∧ inGrid 20 20 head ∧
      (p1 = gameBoard.fruit → more = []) := by
  have hhead : inGrid 20 20 head := hsq.2.2.2 head (by rw [hsegs]; exact List.mem_cons_self _ _)
  rcases (aStar_outcome gameBoard 20 tie fuel head gameBoard.fruit hsq hhead).1 path hpath with
    ⟨h, _⟩ | ⟨_, _, hfirst, hlast, hchain, hnodup⟩
  · rw [h] at hlen; simp at hlen
  · match path, hlen, hfirst, hlast, hchain, hnodup with
    | a :: p1 :: more, _, hfirst, hlast, hchain, hnodup =>
      simp only [List.head?_cons, Option.some.injEq] at hfirst
      subst hfirst
      refine ⟨p1, more, rfl, hnodup, (List.chain'_cons.1 hchain).1, hhead, fun hp => ?_⟩
      cases more with
      | nil => rfl
      | cons m ms =>
        exfalso
        rw [List.getLast?_cons_cons, List.getLast?_cons_cons] at hlast
        have hmem : gameBoard.fruit ∈ m :: ms := List.mem_of_getLast?_eq_some hlast
        have hn := (List.nodup_cons.1 (List.nodup_cons.1 hnodup).2).1
        exact hn (hp ▸ hmem)

theorem fold_first_max (gridWidth gridHeight : Int) (head fruit : iPoint2D) :
    ∀ (steps : List iPoint2D) (b : Best) (s0 : ℚ), b.bestScore = some s0 →
      (steps.foldl (AISnake.examine gridWidth gridHeight head fruit) b = b ∧
        ∀ q ∈ steps, AISnake.stepScore gridWidth gridHeight head fruit q ≤ s0) ∨
      ∃ pre q post, steps = pre ++ q :: post ∧
        (∀ r ∈ pre, AISnake.stepScore gridWidth gridHeight head fruit r <
          AISnake.stepScore gridWidth gridHeight head fruit q) ∧
        s0 < AISnake.stepScore gridWidth gridHeight head fruit q ∧
        (∀ r ∈ post, AISnake.stepScore gridWidth gridHeight head fruit r ≤
          AISnake.stepScore gridWidth gridHeight head fruit q) ∧
        steps.foldl (AISnake.examine gridWidth gridHeight head fruit) b =
          { bestDirection := AISnake.stepDirection head q,
            bestScore := some (AISnake.stepScore gridWidth gridHeight head fruit q) }
  | [], _, _, _ => Or.inl ⟨rfl, fun _ h => absurd h (List.not_mem_nil _)⟩
  | q :: l, b, s0, hb => by
    rw [List.foldl_cons]
    by_cases hq : s0 < AISnake.stepScore gridWidth gridHeight head fruit q
    · have hex : AISnake.examine gridWidth gridHeight head fruit b q =
          { bestDirection := AISnake.stepDirection head q,
            bestScore := some (AISnake.stepScore gridWidth gridHeight head fruit q) } := by
        unfold AISnake.examine
        simp only [hb, gt_iff_lt]
        rw [if_pos (by simpa using hq)]
      rw [hex]
      rcases fold_first_max gridWidth gridHeight head fruit l
          { bestDirection := AISnake.stepDirection head q,
            bestScore := some (AISnake.stepScore gridWidth gridHeight head fruit q) }
          (AISnake.stepScore gridWidth gridHeight head fruit q) rfl with
        ⟨h1, h2⟩ | ⟨pre, q1, post, hl, hpre, hlt, hpost, hres⟩
      · exact Or.inr ⟨[], q, l, rfl, fun _ h => absurd h (List.not_mem_nil _), hq, h2, h1⟩
      · refine Or.inr ⟨q :: pre, q1, post, by rw [hl]; rfl, ?_, lt_trans hq hlt, hpost, hres⟩
        intro r hr
        rcases List.mem_cons.1 hr with h | h
        · rw [h]; exact hlt
        · exact hpre r h
    · have hex : AISnake.examine gridWidth gridHeight head fruit b q = b := by
        unfold AISnake.examine
        simp only [hb, gt_iff_lt]
        rw [if_neg (by simpa using hq)]
      rw [hex]
      rcases fold_first_max gridWidth gridHeight head fruit l b s0 hb with
        ⟨h1, h2⟩ | ⟨pre, q1, post, hl, hpre, hlt, hpost, hres⟩
      · refine Or.inl ⟨h1, ?_⟩
        intro r hr
        rcases List.mem_cons.1 hr with h | h
        · rw [h]; exact not_lt.1 hq
        · exact h2 r h
      · refine Or.inr ⟨q :: pre, q1, post, by rw [hl]; rfl, ?_, hlt, hpost, hres⟩
        intro r hr
        rcases List.mem_cons.1 hr with h | h
        · rw [h]; exact lt_of_le_of_lt (not_lt.1 hq) hlt
        · exact hpre r h

theorem bestOf_first_max (gridWidth gridHeight : Int) (head fruit a p1 : iPoint2D)
    (more : List iPoint2D) :
    ∃ pre q post, AISnake.examinedSteps (a :: p1 :: more) = pre ++ q :: post ∧
      (∀ r ∈ pre, AISnake.stepScore gridWidth gridHeight head fruit r <
        AISnake.stepScore gridWidth gridHeight head fruit q) ∧
      (∀ r ∈ post, AISnake.stepScore gridWidth gridHeight head fruit r ≤
        AISnake.stepScore gridWidth gridHeight head fruit q) ∧
      AISnake.bestOf gridWidth gridHeight head fruit (a :: p1 :: more) =
        { bestDirection := AISnake.stepDirection head q,
          bestScore := some (AISnake.stepScore gridWidth gridHeight head fruit q) } := by
  unfold AISnake.bestOf
  rw [examinedSteps_cons, List.foldl_cons, examine_first]
  rcases fold_first_max gridWidth gridHeight head fruit (more.take (min 4 more.length))
      { bestDirection := AISnake.stepDirection head p1,
        bestScore := some (AISnake.stepScore gridWidth gridHeight head fruit p1) }
      (AISnake.stepScore gridWidth gridHeight head fruit p1) rfl
    with ⟨h1, h2⟩ | ⟨pre, q1, post, hl, hpre, hlt, hpost, hres⟩
  · exact ⟨[], p1, _, rfl, fun _ h => absurd h (List.not_mem_nil _), h2, h1⟩
  · refine ⟨p1 :: pre, q1, post, by rw [hl]; rfl, ?_, hpost, hres⟩
    intro r hr
    rcases List.mem_cons.1 hr with h | h
    · rw [h]; exact hlt
    · exact hpre r h

theorem bestOf_adjacent (head fruit : iPoint2D) (d : Fin 4) (more : List iPoint2D)
    (hnodup : (head :: Snake.stepHead (headingOfIndex d) head :: more).Nodup)
    (hfruit : Snake.stepHead (headingOfIndex d) head = fruit → more = []) :
    (AISnake.bestOf 20 20 head fruit
      (head :: Snake.stepHead (headingOfIndex d) head :: more)).bestDirection = (d.val : Int) := by
  unfold AISnake.bestOf
  rw [examinedSteps_cons, List.foldl_cons, examine_first, stepDirection_adjacent]
  by_cases hf : Snake.stepHead (headingOfIndex d) head = fruit
  · rw [hfruit hf]
    rfl
  · rw [stepScore_adjacent head fruit d hf, foldl_keep]
    intro q hq hqh
    have hmem : q ∈ Snake.stepHead (headingOfIndex d) head :: more :=
      List.mem_cons_of_mem _ (List.mem_of_mem_take hq)
    exact (List.nodup_cons.1 hnodup).1 (hqh ▸ hmem)

theorem movedHead_inGrid (gameBoard : GameBoard) (dir : Direction) (head : iPoint2D)
    (hsq : squareBoard gameBoard 20) (hcs : gameBoard.cellSize = cellSize)
    (hin : inGrid 20 20 (Snake.stepHead dir head)) :
    Snake.movedHead { gameBoard with snake := { gameBoard.snake with direction := dir } } head =
      Snake.stepHead dir head := by
  have hw : gameBoard.width.tdiv gameBoard.cellSize = 20 := hsq.2.1
  have hh : gameBoard.height.tdiv gameBoard.cellSize = 20 := hsq.2.2.1
  have hw2 : gameBoard.width.tdiv cellSize = 20 := by rw [← hcs]; exact hw
  have hh2 : gameBoard.height.tdiv cellSize = 20 := by rw [← hcs]; exact hh
  obtain ⟨hx0, hx1, hy0, hy1⟩ := hin
  unfold Snake.movedHead
  simp only [hw, hh, hw2, hh2]
  rw [if_neg (by omega), if_neg (by omega), if_neg (by omega), if_neg (by omega)]

theorem toroidalStep_inGrid (a b : iPoint2D) (ha : inGrid 20 20 a) (h : toroidalStep 20 a b) :
    inGrid 20 20 b := by
  obtain ⟨hx0, hx1, hy0, hy1⟩ := ha
  unfold inGrid
  rcases h with ⟨h1, h2 | h2⟩ | ⟨h1, h2 | h2⟩ <;> omega

/-- C18 (amended). For every 20 x 20 board whose Body lies in the grid and for which
`GameBoard::aStar(head, fruit)` returns a path of at least 2 cells, the vector that
`AISnake::activation` passes to `backpropagate` has a 1 at one index `i` and 0 at the three
others.  The index `i` is the direction index of the offset, taken without wrap, from the
head to the winning step `q`: the first of the examined cells `path[1] .. path[min(5, n-1)]`
whose score is the greatest (`deltaX < 0` gives 2, Left; `deltaX > 0` gives 3, Right;
`deltaY < 0` gives 0, Up; `deltaY > 0` gives 1, Down).  When `path[1]` is the head moved one
cell along the heading of index `d` with no edge crossed, `i = d`, the heading that moves the
head onto `path[1]`.  When the first step crosses a board edge the index need not be that
heading. -/
theorem activation_target_direction (policy : List ℚ → Fin 4 → ℚ) (tie : Nat → Nat)
    (fuel : Nat) (gameBoard : GameBoard) (head : iPoint2D) (rest path : List iPoint2D)
    (hsq : squareBoard gameBoard 20) (hcs : gameBoard.cellSize = cellSize)
    (hsegs : gameBoard.snake.segments = head :: rest)
    (hpath : gameBoard.aStar tie fuel head gameBoard.fruit = some path)
    (hlen : 2 ≤ path.length) :
    ∃ i : Fin 4,
      (AISnake.activation policy tie fuel gameBoard).map Prod.snd = some (oneHot i) ∧
      (∃ pre q post, AISnake.examinedSteps path = pre ++ q :: post ∧
        (∀ r ∈ pre, AISnake.stepScore 20 20 head gameBoard.fruit r <
          AISnake.stepScore 20 20 head gameBoard.fruit q) ∧
        (∀ r ∈ post, AISnake.stepScore 20 20 head gameBoard.fruit r ≤
          AISnake.stepScore 20 20 head gameBoard.fruit q) ∧
        AISnake.stepDirection head q = (i.val : Int)) ∧
      (∀ d : Fin 4, path[1]? = some (Snake.stepHead (headingOfIndex d) head) →
        i = d ∧
        Snake.movedHead
          { gameBoard with snake := { gameBoard.snake with direction := headingOfIndex d } }
          head = Snake.stepHead (headingOfIndex d) head) := by
  obtain ⟨p1, more, hp, hnodup, hstep, hhead, hfr⟩ :=
    path_shape gameBoard tie fuel head rest path hsq hsegs hpath hlen
  subst hp
  have hw2 : gameBoard.width.tdiv cellSize = 20 := by rw [← hcs]; exact hsq.2.1
  have hh2 : gameBoard.height.tdiv cellSize = 20 := by rw [← hcs]; exact hsq.2.2.1
  have hact : (AISnake.activation policy tie fuel gameBoard).map Prod.snd =
      some (AISnake.expectedOutputs 20 20 head gameBoard.fruit (head :: p1 :: more)) := by
    unfold AISnake.activation
    rw [hsegs]
    simp only [hpath, hw2, hh2, Option.map_some']
  obtain ⟨pre, q, post, hsplit, hpre, hpost, hbest⟩ :=
    bestOf_first_max 20 20 head gameBoard.fruit head p1 more
  have hqne : q ≠ head := by
    intro hq
    have hmem : q ∈ AISnake.examinedSteps (head :: p1 :: more) := by
      rw [hsplit]
      exact List.mem_append_right _ (List.mem_cons_self _ _)
    rw [examinedSteps_cons] at hmem
    have hmem2 : q ∈ p1 :: more := by
      rcases List.mem_cons.1 hmem with h | h
      · rw [h]; exact List.mem_cons_self _ _
      · exact List.mem_cons_of_mem _ (List.mem_of_mem_take h)
    exact (List.nodup_cons.1 hnodup).1 (hq ▸ hmem2)
  have hrange := stepDirection_range head q hqne
  obtain ⟨i, hi, hout⟩ := expectedOutputs_of_best 20 20 head gameBoard.fruit
    (head :: p1 :: more) (List.cons_ne_nil _ _) _ _ hbest hrange.1 hrange.2
  refine ⟨i, by rw [hact, hout], ⟨pre, q, post, hsplit, hpre, hpost, hi.symm⟩, ?_⟩
  intro d hd
  have hp1 : p1 = Snake.stepHead (headingOfIndex d) head := by
    simpa using hd
  subst hp1
  constructor
  · have hadj := bestOf_adjacent head gameBoard.fruit d more hnodup hfr
    rw [hbest] at hadj
    have heq : (i.val : Int) = (d.val : Int) := by rw [hi]; exact hadj
    exact Fin.ext (Int.ofNat_inj.1 heq)
  · exact movedHead_inGrid gameBoard _ head hsq hcs (toroidalStep_inGrid head _ hhead hstep)

/-- C18 (amended), an instance: `synthBoard` with the path `synthRow`, whose winning step
is `path[1] = (11,10)`, the head moved one cell to the Right. -/
theorem activation_target_direction_witness :
    squareBoard synthBoard 20 ∧ synthBoard.cellSize = cellSize ∧
    synthBoard.snake.segments = [⟨10, 10⟩, ⟨9, 10⟩] ∧
    synthBoard.aStar (fun _ => 0) 6 ⟨10, 10⟩ synthBoard.fruit = some synthRow ∧
    2 ≤ synthRow.length ∧
    ∃ i : Fin 4,
      (AISnake.activation (fun _ _ => 0) (fun _ => 0) 6 synthBoard).map Prod.snd =
        some (oneHot i) ∧
      (∃ pre q post, AISnake.examinedSteps synthRow = pre ++ q :: post ∧
        (∀ r ∈ pre, AISnake.stepScore 20 20 ⟨10, 10⟩ synthBoard.fruit r <
          AISnake.stepScore 20 20 ⟨10, 10⟩ synthBoard.fruit q) ∧
        (∀ r ∈ post, AISnake.stepScore 20 20 ⟨10, 10⟩ synthBoard.fruit r ≤
          AISnake.stepScore 20 20 ⟨10, 10⟩ synthBoard.fruit q) ∧
        AISnake.stepDirection ⟨10, 10⟩ q = (i.val : Int)) ∧
      (∀ d : Fin 4, synthRow[1]? = some (Snake.stepHead (headingOfIndex d) ⟨10, 10⟩) →
        i = d ∧
        Snake.movedHead
          { synthBoard with snake := { synthBoard.snake with direction := headingOfIndex d } }
          ⟨10, 10⟩ = Snake.stepHead (headingOfIndex d) ⟨10, 10⟩) :=
  ⟨by decide, rfl, rfl, synthBoard_path (fun _ => 0) 0, by decide,
    activation_target_direction (fun _ _ => 0) (fun _ => 0) 6 synthBoard ⟨10, 10⟩ [⟨9, 10⟩]
      synthRow (by decide) rfl rfl (synthBoard_path (fun _ => 0) 0) (by decide)⟩

/-- C18, counterexample. `edgeBoard` is a 20 x 20 board with Body `[(0,5), (1,5)]` in the
grid and Fruit `(19,5)`.  The planner returns the path `[(0,5), (19,5)]` of 2 cells, whose
first step crosses the left edge.  Left, index 2, is the one heading that moves the head,
with edge wrap, onto `path[1] = (19,5)`.  The vector passed to `backpropagate` is
`[0, 0, 0, 1]`: its 1 is at index 3, Right, the heading that moves the head onto the Body
cell `(1,5)`. -/
theorem activation_edge_counterexample :
    squareBoard edgeBoard 20 ∧
    edgeBoard.snake.segments = [⟨0, 5⟩, ⟨1, 5⟩] ∧
    edgeBoard.aStar (fun _ => 0) 2 ⟨0, 5⟩ edgeBoard.fruit = some [⟨0, 5⟩, ⟨19, 5⟩] ∧
    (∀ d : Fin 4,
      Snake.movedHead
        { edgeBoard with snake := { edgeBoard.snake with direction := headingOfIndex d } }
        ⟨0, 5⟩ = ⟨19, 5⟩ ↔ d = 2) ∧
    (AISnake.activation (fun _ _ => 0) (fun _ => 0) 2 edgeBoard).map Prod.snd =
      some [0, 0, 0, 1] ∧
    ([0, 0, 0, 1] : List ℚ) = oneHot 3 ∧ oneHot 3 ≠ oneHot 2 ∧
    headingOfIndex 3 = Direction.Right ∧
    Snake.movedHead
      { edgeBoard with snake := { edgeBoard.snake with direction := Direction.Right } }
      ⟨0, 5⟩ = ⟨1, 5⟩ ∧
    (⟨1, 5⟩ : iPoint2D) ∈ edgeBoard.snake.segments := by
  have h := activation_edge_target (fun _ _ => 0) (fun _ => 0) 0
  refine ⟨by decide, rfl, h.2.1, by decide, h.2.2.2.2.1, rfl, ?_, rfl, by decide, by decide⟩
  have h3 : oneHot 3 = [0, 0, 0, 1] := rfl
  have h2 : oneHot 2 = [0, 0, 1, 0] := rfl
  rw [h3, h2]
  simp

theorem farEdgeBoard_path (tie : Nat → Nat) (fuel : Nat) :
    farEdgeBoard.aStar tie (fuel + 4) ⟨0, 5⟩ ⟨17, 5⟩ =
      some [⟨0, 5⟩, ⟨19, 5⟩, ⟨18, 5⟩, ⟨17, 5⟩] := by
  rw [Nat.add_comm]
  apply aStar_mono
  rw [aStar_forced farEdgeBoard 4 ⟨0, 5⟩ ⟨17, 5⟩ (by decide) tie]
  decide

/-- On `farEdgeBoard`, a 20 x 20 board with Body `[(0,5), (1,5)]` in the grid and Fruit
`(17,5)`, for every policy, tie order and fuel of at least 4: the planner path is
`[(0,5), (19,5), (18,5), (17,5)]`; the examined steps score 21, 22 and 10, so the winning
step is `path[2] = (18,5)`, not `path[1]`; the vector passed to `backpropagate` is
`[0, 0, 0, 1]`, the direction index of the offset `(18, 0)` taken without wrap. -/
theorem activation_far_edge_target (policy : List ℚ → Fin 4 → ℚ) (tie : Nat → Nat)
    (fuel : Nat) :
    squareBoard farEdgeBoard 20 ∧
    farEdgeBoard.aStar tie (fuel + 4) ⟨0, 5⟩ ⟨17, 5⟩ =
      some [⟨0, 5⟩, ⟨19, 5⟩, ⟨18, 5⟩, ⟨17, 5⟩] ∧
    AISnake.stepScore 20 20 ⟨0, 5⟩ ⟨17, 5⟩ ⟨19, 5⟩ = 21 ∧
    AISnake.stepScore 20 20 ⟨0, 5⟩ ⟨17, 5⟩ ⟨18, 5⟩ = 22 ∧
    AISnake.stepScore 20 20 ⟨0, 5⟩ ⟨17, 5⟩ ⟨17, 5⟩ = 10 ∧
    AISnake.stepDirection ⟨0, 5⟩ ⟨18, 5⟩ = 3 ∧
    (AISnake.activation policy tie (fuel + 4) farEdgeBoard).map Prod.snd =
      some [0, 0, 0, 1] := by
  refine ⟨by decide, farEdgeBoard_path tie fuel, ?_, ?_, ?_, by decide, ?_⟩
  · simp [AISnake.stepScore]
  · simp [AISnake.stepScore]
  · simp [AISnake.stepScore]
  · unfold AISnake.activation
    have hsegs : farEdgeBoard.snake.segments = [⟨0, 5⟩, ⟨1, 5⟩] := rfl
    have hfruit : farEdgeBoard.fruit = ⟨17, 5⟩ := rfl
    have hw : farEdgeBoard.width.tdiv cellSize = 20 := by decide
    have hh : farEdgeBoard.height.tdiv cellSize = 20 := by decide
    simp only [hsegs, hfruit, farEdgeBoard_path tie fuel, Option.map_some', hw, hh]
    simp [AISnake.expectedOutputs, AISnake.bestOf, AISnake.examinedSteps, AISnake.examine,
      AISnake.stepScore, AISnake.stepDirection]
    rfl

/-! ## Feature extractor -/

theorem shortest_of_half (r D : ℚ) (hD : 0 < D) (hr : |r| ≤ D / 2) (j : Int) :
    |r| ≤ |r + (j : ℚ) * D| := by
  rcases lt_trichotomy j 0 with hj | hj | hj
  · have h1 : (j : ℚ) ≤ -1 := by exact_mod_cast (by omega : j ≤ -1)
    have h2 : (j : ℚ) * D ≤ -D := by nlinarith
    have h3 := (abs_le.1 hr).2
    have h4 : D / 2 ≤ -(r + (j : ℚ) * D) := by linarith
    exact le_trans hr (le_trans h4 (neg_le_abs _))
  · subst hj; simp
  · have h1 : (1 : ℚ) ≤ (j : ℚ) := by exact_mod_cast (by omega : 1 ≤ j)
    have h2 : D ≤ (j : ℚ) * D := by nlinarith
    have h3 := (abs_le.1 hr).1
    have h4 : D / 2 ≤ r + (j : ℚ) * D := by linarith
    exact le_trans hr (le_trans h4 (le_abs_self _))

theorem relativeFruit_core (a b D : Int) (hD : 1 ≤ D) (ha0 : 0 ≤ a) (ha1 : a < D)
    (hb0 : 0 ≤ b) (hb1 : b < D) (r : ℚ)
    (hr : r =
      if (if ((b - a : Int) : ℚ) > (D : ℚ) / 2 then ((b - a : Int) : ℚ) - (D : ℚ)
          else ((b - a : Int) : ℚ)) < ((-D : Int) : ℚ) / 2
      then (if ((b - a : Int) : ℚ) > (D : ℚ) / 2 then ((b - a : Int) : ℚ) - (D : ℚ)
          else ((b - a : Int) : ℚ)) + (D : ℚ)
      else (if ((b - a : Int) : ℚ) > (D : ℚ) / 2 then ((b - a : Int) : ℚ) - (D : ℚ)
          else ((b - a : Int) : ℚ))) :
    -(D : ℚ) / 2 ≤ r ∧ r ≤ (D : ℚ) / 2 ∧
    (r = ((b - a : Int) : ℚ) ∨ r = ((b - a : Int) : ℚ) - (D : ℚ) ∨
      r = ((b - a : Int) : ℚ) + (D : ℚ)) ∧
    ∀ k : Int, |r| ≤ |((b - a : Int) : ℚ) + (k : ℚ) * (D : ℚ)| := by
  have hDq : (0 : ℚ) < (D : ℚ) := by exact_mod_cast (by omega : 0 < D)
  have hlo : -(D : ℚ) < ((b - a : Int) : ℚ) := by exact_mod_cast (by omega : -D < b - a)
  have hhi : ((b - a : Int) : ℚ) < (D : ℚ) := by exact_mod_cast (by omega : b - a < D)
  have hneg : ((-D : Int) : ℚ) = -(D : ℚ) := by push_cast; ring
  rw [hneg] at hr
  generalize ((b - a : Int) : ℚ) = d at hr hlo hhi ⊢
  have hcases : (r = d ∧ -(D : ℚ) / 2 ≤ d ∧ d ≤ (D : ℚ) / 2) ∨
      (r = d - (D : ℚ) ∧ (D : ℚ) / 2 < d) ∨ (r = d + (D : ℚ) ∧ d < -(D : ℚ) / 2) := by
    rw [hr]
    by_cases h1 : d > (D : ℚ) / 2
    · rw [if_pos h1]
      have h2 : ¬ (d - (D : ℚ) < -(D : ℚ) / 2) := by linarith
      rw [if_neg h2]
      exact Or.inr (Or.inl ⟨rfl, h1⟩)
    · rw [if_neg h1]
      by_cases h2 : d < -(D : ℚ) / 2
      · rw [if_pos h2]
        exact Or.inr (Or.inr ⟨rfl, h2⟩)
      · rw [if_neg h2]
        exact Or.inl ⟨rfl, by linarith, by linarith⟩
  have hrange : -(D : ℚ) / 2 ≤ r ∧ r ≤ (D : ℚ) / 2 := by
    rcases hcases with ⟨h, h1, h2⟩ | ⟨h, h1⟩ | ⟨h, h1⟩ <;> constructor <;> linarith
  have habs : |r| ≤ (D : ℚ) / 2 := abs_le.2 ⟨by linarith [hrange.1], hrange.2⟩
  refine ⟨hrange.1, hrange.2, ?_, fun k => ?_⟩
  · rcases hcases with ⟨h, _⟩ | ⟨h, _⟩ | ⟨h, _⟩
    · exact Or.inl h
    · exact Or.inr (Or.inl h)
    · exact Or.inr (Or.inr h)
  · rcases hcases with ⟨h, _⟩ | ⟨h, _⟩ | ⟨h, _⟩
    · have := shortest_of_half r (D : ℚ) hDq habs k
      rw [h] at this ⊢
      exact this
    · have := shortest_of_half r (D : ℚ) hDq habs (k + 1)
      have e : d + (k : ℚ) * (D : ℚ) = r + ((k + 1 : Int) : ℚ) * (D : ℚ) := by
        rw [h]; push_cast; ring
      rw [e]; exact this
    · have := shortest_of_half r (D : ℚ) hDq habs (k - 1)
      have e : d + (k : ℚ) * (D : ℚ) = r + ((k - 1 : Int) : ℚ) * (D : ℚ) := by
        rw [h]; push_cast; ring
      rw [e]; exact this

/-- C14. For every grid dimension `D ≥ 1` and every head and fruit with coordinates in
`[0, D)`: the value `r` returned by `AISnake::computeRelativeFruitX` satisfies
`-D/2 ≤ r ≤ D/2`, is `fruit.x - head.x` or that offset minus or plus `D`, and no offset
`fruit.x - head.x + k D` is shorter than `r`; likewise `AISnake::computeRelativeFruitY`
on the `y` coordinates. -/
theorem computeRelativeFruit_shortest (D : Int) (head fruit : iPoint2D) (hD : 1 ≤ D)
    (hhead : inGrid D D head) (hfruit : inGrid D D fruit) :
    (-(D : ℚ) / 2 ≤ AISnake.computeRelativeFruitX head fruit D ∧
      AISnake.computeRelativeFruitX head fruit D ≤ (D : ℚ) / 2 ∧
      (AISnake.computeRelativeFruitX head fruit D = ((fruit.x - head.x : Int) : ℚ) ∨
        AISnake.computeRelativeFruitX head fruit D = ((fruit.x - head.x : Int) : ℚ) - (D : ℚ) ∨
        AISnake.computeRelativeFruitX head fruit D = ((fruit.x - head.x : Int) : ℚ) + (D : ℚ)) ∧
      ∀ k : Int, |AISnake.computeRelativeFruitX head fruit D| ≤
        |((fruit.x - head.x : Int) : ℚ) + (k : ℚ) * (D : ℚ)|) ∧
    (-(D : ℚ) / 2 ≤ AISnake.computeRelativeFruitY head fruit D ∧
      AISnake.computeRelativeFruitY head fruit D ≤ (D : ℚ) / 2 ∧
      (AISnake.computeRelativeFruitY head fruit D = ((fruit.y - head.y : Int) : ℚ) ∨
        AISnake.computeRelativeFruitY head fruit D = ((fruit.y - head.y : Int) : ℚ) - (D : ℚ) ∨
        AISnake.computeRelativeFruitY head fruit D = ((fruit.y - head.y : Int) : ℚ) + (D : ℚ)) ∧
      ∀ k : Int, |AISnake.computeRelativeFruitY head fruit D| ≤
        |((fruit.y - head.y : Int) : ℚ) + (k : ℚ) * (D : ℚ)|) := by
  obtain ⟨hx0, hx1, hy0, hy1⟩ := hhead
  obtain ⟨fx0, fx1, fy0, fy1⟩ := hfruit
  exact ⟨relativeFruit_core head.x fruit.x D hD hx0 hx1 fx0 fx1 _ rfl,
    relativeFruit_core head.y fruit.y D hD hy0 hy1 fy0 fy1 _ rfl⟩

/-- Witness of C14: head `(5,5)`, fruit `(5,15)` on a grid of dimension 20. -/
theorem computeRelativeFruit_shortest_witness :
    inGrid 20 20 ⟨5, 5⟩ ∧ inGrid 20 20 ⟨5, 15⟩ ∧
    -((20 : Int) : ℚ) / 2 ≤ AISnake.computeRelativeFruitY ⟨5, 5⟩ ⟨5, 15⟩ 20 ∧
    AISnake.computeRelativeFruitY ⟨5, 5⟩ ⟨5, 15⟩ 20 ≤ ((20 : Int) : ℚ) / 2 := by
  have h := computeRelativeFruit_shortest 20 ⟨5, 5⟩ ⟨5, 15⟩ (by decide) (by decide) (by decide)
  exact ⟨by decide, by decide, h.2.1, h.2.2.1⟩

/-- C13 (amended). With head `(5,5)`, fruit `(5,15)` and `gridHeight = 20`,
`AISnake::computeRelativeFruitY` returns `+10`: the offset 10 is not greater than
`gridHeight / 2 = 10`, so it is returned as it is. -/
theorem computeRelativeFruitY_example :
    AISnake.computeRelativeFruitY ⟨5, 5⟩ ⟨5, 15⟩ 20 = 10 ∧
    ¬ ((((15 - 5 : Int) : ℚ)) > ((20 : Int) : ℚ) / 2) := by
  constructor
  · unfold AISnake.computeRelativeFruitY
    norm_num
  · norm_num

/-- Counterexample to C13 as stated: with head `(5,5)`, fruit `(5,15)` and
`gridHeight = 20`, `AISnake::computeRelativeFruitY` does not return `-10`. -/
theorem computeRelativeFruitY_not_minus_ten :
    AISnake.computeRelativeFruitY ⟨5, 5⟩ ⟨5, 15⟩ 20 ≠ -10 := by
  unfold AISnake.computeRelativeFruitY
  norm_num

theorem firstHit_some (p : Int → Bool) (step : Int) :
    ∀ (k : Nat) (v r : Int), firstHit p step v k = some r →
      ∃ j : Nat, j < k ∧ r = v + (j : Int) * step ∧ p r = true ∧
        ∀ i : Nat, i < j → p (v + (i : Int) * step) = false
  | 0, _, _, h => by cases h
  | k + 1, v, r, h => by
    unfold firstHit at h
    by_cases hp : p v = true
    · rw [if_pos hp] at h
      cases h
      exact ⟨0, by omega, by simp, hp, fun i hi => by omega⟩
    · rw [if_neg hp] at h
      obtain ⟨j, hj, hr, hpr, hbefore⟩ := firstHit_some p step k (v + step) r h
      refine ⟨j + 1, by omega, by rw [hr]; push_cast; ring, hpr, fun i hi => ?_⟩
      cases i with
      | zero => simpa using hp
      | succ i =>
        have := hbefore i (by omega)
        rw [← this]
        congr 1
        push_cast
        ring

theorem firstHit_none (p : Int → Bool) (step : Int) :
    ∀ (k : Nat) (v : Int), firstHit p step v k = none →
      ∀ j : Nat, j < k → p (v + (j : Int) * step) = false
  | 0, _, _, j, hj => by omega
  | k + 1, v, h, j, hj => by
    unfold firstHit at h
    by_cases hp : p v = true
    · rw [if_pos hp] at h; cases h
    · rw [if_neg hp] at h
      cases j with
      | zero => simpa using hp
      | succ j =>
        have := firstHit_none p step k (v + step) h j (by omega)
        rw [← this]
        congr 1
        push_cast
        ring

theorem scan_down_hit (p : Int → Bool) (a w : Int) (hw : p w = true) (hw0 : 0 ≤ w)
    (hwa : w < a) (hnear : ∀ v, w < v → v < a → p v = false) :
    firstHit p (-1) (a - 1) a.toNat = some w := by
  cases h : firstHit p (-1) (a - 1) a.toNat with
  | none =>
    have := firstHit_none p (-1) a.toNat (a - 1) h (a - 1 - w).toNat (by omega)
    rw [show a - 1 + ((a - 1 - w).toNat : Int) * -1 = w by omega, hw] at this
    cases this
  | some r =>
    obtain ⟨j, hj, hr, hpr, hbefore⟩ := firstHit_some p (-1) a.toNat (a - 1) r h
    rcases lt_trichotomy r w with hlt | heq | hgt
    · have := hbefore (a - 1 - w).toNat (by omega)
      rw [show a - 1 + ((a - 1 - w).toNat : Int) * -1 = w by omega, hw] at this
      cases this
    · rw [heq]
    · have := hnear r hgt (by omega)
      rw [hpr] at this
      cases this

theorem scan_down_miss (p : Int → Bool) (a : Int)
    (hnone : ∀ v, 0 ≤ v → v < a → p v = false) :
    firstHit p (-1) (a - 1) a.toNat = none := by
  cases h : firstHit p (-1) (a - 1) a.toNat with
  | none => rfl
  | some r =>
    obtain ⟨j, hj, hr, hpr, _⟩ := firstHit_some p (-1) a.toNat (a - 1) r h
    have := hnone r (by omega) (by omega)
    rw [hpr] at this
    cases this

theorem scan_up_hit (p : Int → Bool) (a b w : Int) (hw : p w = true) (haw : a < w)
    (hwb : w < b) (hnear : ∀ v, a < v → v < w → p v = false) :
    firstHit p 1 (a + 1) (b - a - 1).toNat = some w := by
  cases h : firstHit p 1 (a + 1) (b - a - 1).toNat with
  | none =>
    have := firstHit_none p 1 (b - a - 1).toNat (a + 1) h (w - a - 1).toNat (by omega)
    rw [show a + 1 + ((w - a - 1).toNat : Int) * 1 = w by omega, hw] at this
    cases this
  | some r =>
    obtain ⟨j, hj, hr, hpr, hbefore⟩ := firstHit_some p 1 (b - a - 1).toNat (a + 1) r h
    rcases lt_trichotomy r w with hlt | heq | hgt
    · have := hnear r (by omega) hlt
      rw [hpr] at this
      cases this
    · rw [heq]
    · have := hbefore (w - a - 1).toNat (by omega)
      rw [show a + 1 + ((w - a - 1).toNat : Int) * 1 = w by omega, hw] at this
      cases this

theorem scan_up_miss (p : Int → Bool) (a b : Int)
    (hnone : ∀ v, a < v → v < b → p v = false) :
    firstHit p 1 (a + 1) (b - a - 1).toNat = none := by
  cases h : firstHit p 1 (a + 1) (b - a - 1).toNat with
  | none => rfl
  | some r =>
    obtain ⟨j, hj, hr, hpr, _⟩ := firstHit_some p 1 (b - a - 1).toNat (a + 1) r h
    have := hnone r (by omega) (by omega)
    rw [hpr] at this
    cases this

/-- C15. For every Body whose cells lie in the grid of `gridWidth` by `gridHeight` cells
and every head: `AISnake::computeDistanceToSnakeUp` returns `head.y - y1` where `y1` is the
largest `y < head.y` with `(head.x, y)` in the Body, and `computeDistanceToWallUp + 1`
(that is `head.y + 1`) when there is no such cell; `computeDistanceToSnakeDown` returns
`y1 - head.y` for the smallest `y1 > head.y` with `(head.x, y1)` in the Body, and
`computeDistanceToWallDown + 1` when there is none; `computeDistanceToSnakeLeft` and
`computeDistanceToSnakeRight` do the same along the row of the head, with
`computeDistanceToWallLeft + 1` and `computeDistanceToWallRight + 1` when there is no Body
cell on that side. -/
theorem computeDistanceToSnake_spec (gridWidth gridHeight : Int) (head : iPoint2D)
    (body : List iPoint2D) (hbody : ∀ s ∈ body, inGrid gridWidth gridHeight s) :
    ((∀ y1, iPoint2D.mk head.x y1 ∈ body → y1 < head.y →
        (∀ y, y1 < y → y < head.y → iPoint2D.mk head.x y ∉ body) →
        AISnake.computeDistanceToSnakeUp head body = ((head.y - y1 : Int) : ℚ)) ∧
      ((∀ y, y < head.y → iPoint2D.mk head.x y ∉ body) →
        AISnake.computeDistanceToSnakeUp head body =
          AISnake.computeDistanceToWallUp head gridHeight + 1 ∧
        AISnake.computeDistanceToSnakeUp head body = ((head.y + 1 : Int) : ℚ))) ∧
    ((∀ y1, iPoint2D.mk head.x y1 ∈ body → head.y < y1 →
        (∀ y, head.y < y → y < y1 → iPoint2D.mk head.x y ∉ body) →
        AISnake.computeDistanceToSnakeDown head body gridHeight = ((y1 - head.y : Int) : ℚ)) ∧
      ((∀ y, head.y < y → iPoint2D.mk head.x y ∉ body) →
        AISnake.computeDistanceToSnakeDown head body gridHeight =
          AISnake.computeDistanceToWallDown head gridHeight + 1)) ∧
    ((∀ x1, iPoint2D.mk x1 head.y ∈ body → x1 < head.x →
        (∀ x, x1 < x → x < head.x → iPoint2D.mk x head.y ∉ body) →
        AISnake.computeDistanceToSnakeLeft head body = ((head.x - x1 : Int) : ℚ)) ∧
      ((∀ x, x < head.x → iPoint2D.mk x head.y ∉ body) →
        AISnake.computeDistanceToSnakeLeft head body =
          AISnake.computeDistanceToWallLeft head gridWidth + 1)) ∧
    ((∀ x1, iPoint2D.mk x1 head.y ∈ body → head.x < x1 →
        (∀ x, head.x < x → x < x1 → iPoint2D.mk x head.y ∉ body) →
        AISnake.computeDistanceToSnakeRight head body gridWidth = ((x1 - head.x : Int) : ℚ)) ∧
      ((∀ x, head.x < x → iPoint2D.mk x head.y ∉ body) →
        AISnake.computeDistanceToSnakeRight head body gridWidth =
          AISnake.computeDistanceToWallRight head gridWidth + 1)) := by
  refine ⟨⟨fun y1 hmem hlt hnear => ?_, fun hnone => ?_⟩,
    ⟨fun y1 hmem hlt hnear => ?_, fun hnone => ?_⟩,
    ⟨fun x1 hmem hlt hnear => ?_, fun hnone => ?_⟩,
    ⟨fun x1 hmem hlt hnear => ?_, fun hnone => ?_⟩⟩
  · have hin := hbody _ hmem
    unfold AISnake.computeDistanceToSnakeUp
    rw [scan_down_hit (fun y => decide (iPoint2D.mk head.x y ∈ body)) head.y y1
      (by simpa using hmem) hin.2.2.1 hlt (fun v h1 h2 => by simpa using hnear v h1 h2)]
  · have h : AISnake.computeDistanceToSnakeUp head body = ((head.y + 1 : Int) : ℚ) := by
      unfold AISnake.computeDistanceToSnakeUp
      rw [scan_down_miss (fun y => decide (iPoint2D.mk head.x y ∈ body)) head.y
        (fun v _ h2 => by simpa using hnone v h2)]
    refine ⟨?_, h⟩
    rw [h]
    unfold AISnake.computeDistanceToWallUp
    push_cast
    ring
  · have hin := hbody _ hmem
    unfold AISnake.computeDistanceToSnakeDown
    rw [scan_up_hit (fun y => decide (iPoint2D.mk head.x y ∈ body)) head.y gridHeight y1
      (by simpa using hmem) hlt hin.2.2.2 (fun v h1 h2 => by simpa using hnear v h1 h2)]
  · unfold AISnake.computeDistanceToSnakeDown AISnake.computeDistanceToWallDown
    rw [scan_up_miss (fun y => decide (iPoint2D.mk head.x y ∈ body)) head.y gridHeight
      (fun v h1 _ => by simpa using hnone v h1)]
    push_cast
    ring
  · have hin := hbody _ hmem
    unfold AISnake.computeDistanceToSnakeLeft
    rw [scan_down_hit (fun x => decide (iPoint2D.mk x head.y ∈ body)) head.x x1
      (by simpa using hmem) hin.1 hlt (fun v h1 h2 => by simpa using hnear v h1 h2)]
  · unfold AISnake.computeDistanceToSnakeLeft AISnake.computeDistanceToWallLeft
    rw [scan_down_miss (fun x => decide (iPoint2D.mk x head.y ∈ body)) head.x
      (fun v _ h2 => by simpa using hnone v h2)]
    push_cast
    ring
  · have hin := hbody _ hmem
    unfold AISnake.computeDistanceToSnakeRight
    rw [scan_up_hit (fun x => decide (iPoint2D.mk x head.y ∈ body)) head.x gridWidth x1
      (by simpa using hmem) hlt hin.2.1 (fun v h1 h2 => by simpa using hnear v h1 h2)]
  · unfold AISnake.computeDistanceToSnakeRight AISnake.computeDistanceToWallRight
    rw [scan_up_miss (fun x => decide (iPoint2D.mk x head.y ∈ body)) head.x gridWidth
      (fun v h1 _ => by simpa using hnone v h1)]
    push_cast
    ring

/-- Witness of C15 on a 20 x 20 grid: head `(5,5)`, Body cells `(5,2)` and `(5,0)` above
the head, `(5,7)` below it and none in its row. -/
theorem computeDistanceToSnake_spec_witness :
    AISnake.computeDistanceToSnakeUp ⟨5, 5⟩ [⟨5, 2⟩, ⟨5, 0⟩, ⟨5, 7⟩] = 3 ∧
    AISnake.computeDistanceToSnakeDown ⟨5, 5⟩ [⟨5, 2⟩, ⟨5, 0⟩, ⟨5, 7⟩] 20 = 2 ∧
    AISnake.computeDistanceToSnakeLeft ⟨5, 5⟩ [⟨5, 2⟩, ⟨5, 0⟩, ⟨5, 7⟩] =
      AISnake.computeDistanceToWallLeft ⟨5, 5⟩ 20 + 1 := by
  have h := computeDistanceToSnake_spec 20 20 ⟨5, 5⟩ [⟨5, 2⟩, ⟨5, 0⟩, ⟨5, 7⟩] (by decide)
  refine ⟨?_, ?_, ?_⟩
  · have := h.1.1 2 (by decide) (by decide) (fun y h1 h2 => by
      have h3 : y < 5 := h2
      have : y = 3 ∨ y = 4 := by omega
      rcases this with rfl | rfl <;> decide)
    rw [this]; norm_num
  · have := h.2.1.1 7 (by decide) (by decide) (fun y h1 h2 => by
      have h3 : 5 < y := h1
      have : y = 6 := by omega
      subst this; decide)
    rw [this]; norm_num
  · exact h.2.2.1.2 (fun x _ => by
      simp only [List.mem_cons, iPoint2D.mk.injEq, List.mem_singleton, List.not_mem_nil,
        or_false]
      omega)

/-! ## Occupancy grid on boards that are not square -/

/-- C16. `GameBoard::getGrid` on `wideBoard` (`gridWidth = 3`, `gridHeight = 2`) and on
`tallBoard` (`gridWidth = 2`, `gridHeight = 3`), whose Bodies lie in their grids: the
matrix has `gridHeight` rows of `gridWidth` entries, the write `grid[2][0]` of the Body
cell `(2, 0)` of `wideBoard` has no row 2 and the write `grid[0][2]` of the Body cell
`(0, 2)` of `tallBoard` has no entry 2 in its row, so an index is out of range. -/
theorem getGrid_out_of_range :
    wideBoard.gridWidth = 3 ∧ wideBoard.gridHeight = 2 ∧
    (∀ s ∈ wideBoard.snake.segments, inGrid wideBoard.gridWidth wideBoard.gridHeight s) ∧
    wideBoard.getGrid = none ∧
    tallBoard.gridWidth = 2 ∧ tallBoard.gridHeight = 3 ∧
    (∀ s ∈ tallBoard.snake.segments, inGrid tallBoard.gridWidth tallBoard.gridHeight s) ∧
    tallBoard.getGrid = none := by
  refine ⟨by decide, by decide, by decide, rfl, by decide, by decide, by decide, rfl⟩

/-! ## Termination of the search loop -/

/-- C17. On a square board of `n` by `n` cells whose Body lies in the grid, for an in-grid
`start`, any `target` and any order among open-list entries of equal `fCost`:
`GameBoard::aStar` returns within `aStarFuel n` loop iterations, and more fuel does not
change what it returns.  A round of the loop over `directions` leaves the open list as it
is unless the neighbor had no recorded cost or a recorded cost strictly greater than the
new one, in which case exactly that neighbor is pushed with the new cost. -/
theorem aStar_terminates (gameBoard : GameBoard) (n : Int) (tie : Nat → Nat) (fuel : Nat)
    (start target : iPoint2D) (hsq : squareBoard gameBoard n) (hs : inGrid n n start)
    (hfuel : aStarFuel n ≤ fuel) :
    (∃ path, gameBoard.aStar tie fuel start target = some path ∧
      ∀ extra, gameBoard.aStar tie (fuel + extra) start target = some path) ∧
    (∀ (grid : BoolGrid) (current : iPoint2D) (s : Search) (dir : iPoint2D),
      relax grid n n target current s dir = s ∨
      ((s.gCost (wrapNeighbor n n current dir) = none ∨
          ∃ g, s.gCost (wrapNeighbor n n current dir) = some g ∧
            (s.gCost current).getD 0 + 1 < g) ∧
        relax grid n n target current s dir =
          s.improve (wrapNeighbor n n current dir) ((s.gCost current).getD 0 + 1)
            current target)) := by
  constructor
  · obtain ⟨path, hpath⟩ := (aStar_outcome gameBoard n tie fuel start target hsq hs).2 hfuel
    exact ⟨path, hpath, fun extra => aStar_mono gameBoard tie fuel extra start target path hpath⟩
  · intro grid current s dir
    rcases relax_cases grid n target current s dir with ⟨h, _⟩ | ⟨_, h1, h2⟩
    · exact Or.inl h
    · exact Or.inr ⟨h1, h2⟩

/-- Witness of C17 on `fullBoard`, whose grid is fully occupied. -/
theorem aStar_terminates_witness :
    squareBoard fullBoard 2 ∧ aStarFuel 2 = 42 ∧
    ∃ path, fullBoard.aStar (fun k => k) 42 ⟨0, 0⟩ ⟨1, 1⟩ = some path := by
  obtain ⟨path, hpath, _⟩ := (aStar_terminates fullBoard 2 (fun k => k) 42 ⟨0, 0⟩ ⟨1, 1⟩
    (by decide) (by decide) (by decide)).1
  exact ⟨by decide, by decide, path, hpath⟩

/-! ## The Fruit and the Body -/

theorem update_cases (trainingAI : Bool) (rnd : Nat) (gameBoard : GameBoard)
    (front : iPoint2D) (rest : List iPoint2D)
    (hrun : gameBoard.gameOver = false)
    (hsegs : gameBoard.snake.segments = front :: rest) :
    (∃ h, Snake.update trainingAI rnd gameBoard = Snake.moveSnake rnd gameBoard h) ∨
    (Snake.stepHead gameBoard.snake.direction front ∈ gameBoard.snake.segments ∧
      Snake.update trainingAI rnd gameBoard =
        if trainingAI then
          Snake.moveSnake rnd
            { gameBoard with snake := Snake.reset, gameOver := false, score := 0 }
            (Snake.stepHead gameBoard.snake.direction front)
        else some { gameBoard with gameOver := true }) := by
  unfold Snake.update
  cases trainingAI <;>
    simp only [hrun, hsegs, Bool.false_eq_true, if_false, if_true] <;>
    split_ifs <;>
    first
    | exact Or.inl ⟨_, rfl⟩
    | exact Or.inr ⟨by assumption, rfl⟩

theorem update_keeps_fruit_free_outside_training (rnd : Nat) (gameBoard after : GameBoard)
    (n : Int) (hsq : squareBoard gameBoard n) (hfin : inGrid n n gameBoard.fruit)
    (hfree : gameBoard.fruit ∉ gameBoard.snake.segments)
    (hupd : Snake.update false rnd gameBoard = some after)
    (hcell : ∃ p, inGrid n n p ∧ p ∉ after.snake.segments) :
    after.fruit ∉ after.snake.segments := by
  by_cases hrun : gameBoard.gameOver = true
  · unfold Snake.update at hupd
    rw [if_pos hrun] at hupd
    cases hupd
    exact hfree
  · have hrun2 : gameBoard.gameOver = false := by simpa using hrun
    cases hsegs : gameBoard.snake.segments with
    | nil =>
      unfold Snake.update at hupd
      simp [hrun2, hsegs] at hupd
    | cons front rest =>
      rcases update_cases false rnd gameBoard front rest hrun2 hsegs with ⟨h, hm⟩ | ⟨_, hc⟩
      · rw [hm] at hupd
        by_cases hf : h = gameBoard.fruit
        · have hseg := (moveSnake_fruit rnd gameBoard after h hf hupd).1
          unfold Snake.moveSnake at hupd
          simp only [hf, if_true] at hupd
          obtain ⟨after2, h2, _, hnew, _⟩ := setFruitToRandom_spec
            { gameBoard with
              snake := { gameBoard.snake with
                segments := gameBoard.fruit :: gameBoard.snake.segments },
              score := gameBoard.score + 1 } n rnd
            ⟨hsq.1, hsq.2.1, hsq.2.2.1, fun s hs => by
              rcases List.mem_cons.1 hs with rfl | hs
              · exact hfin
              · exact hsq.2.2.2 s hs⟩
          rw [h2] at hupd
          have heq : after2 = after := Option.some.inj hupd
          rw [heq] at hnew
          rw [hseg, hf] at hcell ⊢
          exact (hnew hcell).2
        · rw [moveSnake_other rnd gameBoard h hf] at hupd
          cases hupd
          intro hmem
          have hmem2 : gameBoard.fruit ∈ h :: gameBoard.snake.segments :=
            List.dropLast_subset _ hmem
          rcases List.mem_cons.1 hmem2 with heq | hmem3
          · exact hf heq.symm
          · exact hfree hmem3
      · rw [hc] at hupd
        simp only [Bool.false_eq_true, if_false, Option.some.injEq] at hupd
        subst hupd
        exact hfree

/-- C19. In training mode `Snake::update` on `centreFruitBoard`, a 20 x 20 board whose
Body lies in the grid and does not cover the Fruit `(10, 10)`, and whose head advances
into its own Body: the Body is reset without a new Fruit being placed, so after the update
the Fruit `(10, 10)` is a Body cell, although grid cells stay free. -/
theorem update_training_reset_covers_fruit (rnd : Nat) :
    squareBoard centreFruitBoard 20 ∧
    centreFruitBoard.fruit ∉ centreFruitBoard.snake.segments ∧
    ∃ after, Snake.update true rnd centreFruitBoard = some after ∧
      after.fruit ∈ after.snake.segments ∧
      ∃ p, inGrid 20 20 p ∧ p ∉ after.snake.segments := by
  refine ⟨by decide, by decide,
    { centreFruitBoard with
      snake := { segments := [⟨5, 6⟩, ⟨10, 10⟩], direction := Direction.Right },
      score := 0, gameOver := false }, rfl, by decide, ⟨0, 0⟩, by decide, by decide⟩

end snake
